import Mathlib

/-!
# Aurora-Perceptron: histogram extraction, dataset codec, sampler and perceptron trainer

A shallow embedding of `histogram.go`, `perceptron.go` and `main.go`.

Modelling conventions.

* A Go `float64` value is modelled by `F64`: a rational, or one of the three
  non-finite values `NaN`, `+Inf`, `-Inf`; the sign of a zero is not modelled.
  Comparisons are exact.  In the histogram stage the arithmetic on finite values
  is exact (the counters are integers, and what is proved of the quotients
  survives rounding); division by zero and arithmetic on non-finite values
  follow IEEE 754.  In the trainer the operations `+`, `*`, `/` and the library
  function `mat.Dot` are a parameter `Arith`, so that what is proved holds
  whatever the rounding and the order of summation.
* Go `int` is modelled by `Int`, slice indices and lengths by `Nat`.
* Go strings are modelled by `List Char`.
* A run-time panic (index or slice bound out of range, `mat.NewVecDense` shape
  panic) is modelled by `none`.
* The goroutine fan-out/join regions write one slot per index and are joined by
  a `WaitGroup` before any slot is read; they are modelled by a `map` over the
  indexed inputs.
-/

namespace AuroraPerceptron

/-! ## float64 -/

/-- Model of a Go `float64`. -/
inductive F64 where
  | fin (q : ℚ)
  | nan
  | posInf
  | negInf
deriving DecidableEq

namespace F64

/-- Conversion `float64(n)` of a non-negative integer. -/
def ofNat (n : Nat) : F64 := fin n

/-- Conversion `float64(n)` of an integer. -/
def ofInt (n : Int) : F64 := fin n

/-- Sign of an infinity obtained by multiplying or dividing by a finite, non-zero `q`. -/
def signed (positive : Bool) : F64 := if positive then posInf else negInf

/-- Negation. -/
def neg : F64 → F64
  | fin q => fin (-q)
  | nan => nan
  | posInf => negInf
  | negInf => posInf

/-- Addition `x + y`. -/
def add : F64 → F64 → F64
  | fin a, fin b => fin (a + b)
  | nan, _ => nan
  | _, nan => nan
  | posInf, negInf => nan
  | negInf, posInf => nan
  | posInf, _ => posInf
  | negInf, _ => negInf
  | fin _, posInf => posInf
  | fin _, negInf => negInf

/-- Subtraction `x - y`. -/
def sub (x y : F64) : F64 := add x (neg y)

/-- Multiplication `x * y`. -/
def mul : F64 → F64 → F64
  | fin a, fin b => fin (a * b)
  | nan, _ => nan
  | _, nan => nan
  | fin a, posInf => if a = 0 then nan else signed (decide (0 < a))
  | fin a, negInf => if a = 0 then nan else signed (decide (a < 0))
  | posInf, fin b => if b = 0 then nan else signed (decide (0 < b))
  | negInf, fin b => if b = 0 then nan else signed (decide (b < 0))
  | posInf, posInf => posInf
  | negInf, negInf => posInf
  | posInf, negInf => negInf
  | negInf, posInf => negInf

/-- Division `x / y`; a finite non-zero value divided by zero is an infinity, `0 / 0` is NaN. -/
def div : F64 → F64 → F64
  | fin a, fin b =>
    if b = 0 then (if a = 0 then nan else signed (decide (0 < a))) else fin (a / b)
  | nan, _ => nan
  | _, nan => nan
  | fin _, posInf => fin 0
  | fin _, negInf => fin 0
  | posInf, fin b => signed (decide (0 ≤ b))
  | negInf, fin b => signed (decide (b < 0))
  | posInf, posInf => nan
  | negInf, negInf => nan
  | posInf, negInf => nan
  | negInf, posInf => nan

/-- Comparison `x < y`; every comparison with NaN is false. -/
def lt : F64 → F64 → Bool
  | fin a, fin b => decide (a < b)
  | nan, _ => false
  | _, nan => false
  | negInf, negInf => false
  | negInf, _ => true
  | posInf, _ => false
  | fin _, posInf => true
  | fin _, negInf => false

/-- Conversion `int64(x)`: truncation toward zero (0 for the non-finite values, whose
conversion Go leaves implementation-defined). -/
def toInt : F64 → Int
  | fin q => if 0 ≤ q then Int.floor q else Int.ceil q
  | _ => 0

instance : Inhabited F64 := ⟨fin 0⟩

end F64

/-! ## histogram.go -/

/-- Constant `NoAurora`. -/
def NoAurora : Int := 0

/-- Constant `Aurora`. -/
def Aurora : Int := 1

/-- Struct `Histogram`. -/
structure Histogram where
  FileName : List Char
  Data : List F64
  Min : F64
  Max : F64
  Classification : Int
deriving DecidableEq

/-- Zero value of `Histogram`, the content of a freshly made slice slot. -/
def Histogram.zero : Histogram :=
  { FileName := [], Data := [], Min := F64.fin 0, Max := F64.fin 0, Classification := 0 }

instance : Inhabited Histogram := ⟨Histogram.zero⟩

/-- Assignment `output[i] = v` on a slice; panics when `i` is out of range. -/
def setSlot {α : Type} (output : List α) (i : Nat) (v : α) : Option (List α) :=
  if i < output.length then some (output.set i v) else none

/-- Loop `for index, rand := range perm { output[rand] = input[index] }` of
`shuffleHistograms`, started at position `index` of `perm`. -/
def shuffleLoop (input : List Histogram) :
    List Nat → Nat → List Histogram → Option (List Histogram)
  | [], _, output => some output
  | rand :: rest, index, output =>
    match input[index]? with
    | none => none
    | some h =>
      match setSlot output rand h with
      | none => none
      | some output1 => shuffleLoop input rest (index + 1) output1

/-- Function `shuffleHistograms`; `perm` is the value returned by `rand.Perm(len(input))`. -/
def shuffleHistograms (input : List Histogram) (perm : List Nat) : Option (List Histogram) :=
  shuffleLoop input perm 0 (List.replicate input.length Histogram.zero)

/-! ## perceptron.go: the split -/

/-- Expression `int64(float64(len(histograms)) * 0.8)` of `runPerceptron`. -/
def trainingSplit (histograms : List Histogram) : Int :=
  F64.toInt (F64.mul (F64.ofNat histograms.length) (F64.fin (4 / 5)))

/-- Slice expression `s[:k]`; panics when `k` is negative or exceeds the length. -/
def sliceTo {α : Type} (s : List α) (k : Int) : Option (List α) :=
  if 0 ≤ k ∧ k.toNat ≤ s.length then some (s.take k.toNat) else none

/-- Slice expression `s[k:]`; panics when `k` is negative or exceeds the length. -/
def sliceFrom {α : Type} (s : List α) (k : Int) : Option (List α) :=
  if 0 ≤ k ∧ k.toNat ≤ s.length then some (s.drop k.toNat) else none

/-- Slice `trainingData := histograms[:trainingSplit]`. -/
def trainingData (histograms : List Histogram) : Option (List Histogram) :=
  sliceTo histograms (trainingSplit histograms)

/-- Slice `validationData := histograms[trainingSplit:]`. -/
def validationData (histograms : List Histogram) : Option (List Histogram) :=
  sliceFrom histograms (trainingSplit histograms)

/-- Lookup `featureLength := len(trainingData[0].Data)`; panics on an empty training slice. -/
def featureLength (training : List Histogram) : Option Nat :=
  match training with
  | [] => none
  | h :: _ => some h.Data.length

/-! ## histogram.go: feature extraction -/

/-- Decoded image as `generateHistogram` uses it: `MaxX`, `MaxY` are `img.Bounds().Max.X`
and `.Max.Y` (the registered decoders, jpeg and png, return images whose bounds start at
the origin, so these are the width and the height), and `At i j` is the triple
`(r, g, b)` returned by `img.At(i, j).RGBA()`. -/
structure Image where
  MaxX : Nat
  MaxY : Nat
  At : Nat → Nat → Nat × Nat × Nat

/-- Statement `bins[idx]++` on a slice of float64 counters; panics when `idx` is out of range. -/
def incrBin (bins : List F64) (idx : Nat) : Option (List F64) :=
  match bins[idx]? with
  | none => none
  | some v => some (bins.set idx (F64.add v (F64.fin 1)))

/-- Body of the inner loop of `generateHistogram` for the pixel `(i, j)`:
`r[rCurrent/256]++; g[gCurrent/256]++; b[bCurrent/256]++`. -/
def countPixel (img : Image) (i : Nat) (bins : List F64 × List F64 × List F64) (j : Nat) :
    Option (List F64 × List F64 × List F64) :=
  match incrBin bins.1 ((img.At i j).1 / 256) with
  | none => none
  | some r =>
    match incrBin bins.2.1 ((img.At i j).2.1 / 256) with
    | none => none
    | some g =>
      match incrBin bins.2.2 ((img.At i j).2.2 / 256) with
      | none => none
      | some b => some (r, g, b)

/-- Loop `for j := 0; j < rect.Max.Y; j++` of `generateHistogram` for column `i`. -/
def countColumn (img : Image) (bins : List F64 × List F64 × List F64) (i : Nat) :
    Option (List F64 × List F64 × List F64) :=
  (List.range img.MaxY).foldlM (countPixel img i) bins

/-- Loop `for i := 0; i < rect.Max.X; i++` of `generateHistogram`. -/
def countImage (img : Image) : Option (List F64 × List F64 × List F64) :=
  (List.range img.MaxX).foldlM (countColumn img)
    (List.replicate 256 (F64.fin 0), List.replicate 256 (F64.fin 0),
      List.replicate 256 (F64.fin 0))

/-- Order of `sort.Float64s`: `x < y`, with NaN before every other value. -/
def sortLess (x y : F64) : Bool :=
  F64.lt x y || (decide (x = F64.nan) && !decide (y = F64.nan))

/-- Call `sort.Float64s(tempSorted)`. -/
def sortFloat64s (xs : List F64) : List F64 :=
  xs.insertionSort (fun x y => sortLess y x = false)

/-- What `generateHistogram` returns: the decode error, or the values with their
minimum and maximum. -/
inductive Extraction where
  | decodeError
  | ok (values : List F64) (min : F64) (max : F64)
deriving DecidableEq

/-- Function `generateHistogram`; the argument is the result of `image.Decode` on the opened
file (`none` when decoding fails). -/
def generateHistogram (decoded : Option Image) : Option Extraction :=
  match decoded with
  | none => some Extraction.decodeError
  | some img =>
    match countImage img with
    | none => none
    | some (r, g, b) =>
      let result := (r ++ g) ++ b
      let tempSorted := sortFloat64s result
      match tempSorted[0]?, tempSorted[tempSorted.length - 1]? with
      | some lo, some hi => some (Extraction.ok result lo hi)
      | _, _ => none

/-! ## histogram.go: the batch driver of `runHistogram` -/

/-- Struct `Directory`. -/
structure Directory where
  DirectoryName : List Char
  Classification : Int

/-- Body of the goroutine started for the file at one index: the slot written to
`tempHistograms` (left at its zero value on error) and the mark written to `badImports`. -/
def importFile (directory : Directory) (fileName : List Char) (res : Extraction) :
    Histogram × Int :=
  match res with
  | Extraction.ok values min max =>
    ({ FileName := fileName, Classification := directory.Classification, Data := values,
       Min := min, Max := max }, -1)
  | Extraction.decodeError => (Histogram.zero, 1)

/-- Expression `append(tempHistograms[:index], tempHistograms[index+1:]...)`; the slice
expression `tempHistograms[index+1:]` panics when `index + 1` exceeds the current length. -/
def removeAt (tempHistograms : List Histogram) (index : Nat) : Option (List Histogram) :=
  if index + 1 ≤ tempHistograms.length then
    some (tempHistograms.take index ++ tempHistograms.drop (index + 1))
  else none

/-- Loop `for index, value := range badImports` of `runHistogram`, from position `index`. -/
def filterBadImports :
    List Int → Nat → List Histogram → Option (List Histogram)
  | [], _, tempHistograms => some tempHistograms
  | value :: rest, index, tempHistograms =>
    if value = 1 then
      match removeAt tempHistograms index with
      | none => none
      | some remaining => filterBadImports rest (index + 1) remaining
    else filterBadImports rest (index + 1) tempHistograms

/-- One iteration of the loop over `directories` in `runHistogram`: `files` lists, in the
order of `ioutil.ReadDir`, each file name with the result of its `generateHistogram` call;
the value is the slice appended to `histograms`. -/
def importDirectory (directory : Directory) (files : List (List Char × Extraction)) :
    Option (List Histogram) :=
  let slots := files.map (fun f => importFile directory f.1 f.2)
  filterBadImports (slots.map Prod.snd) 0 (slots.map Prod.fst)

/-- Body of the loop computing `globalMin` and `globalMax` in `runHistogram`:
`if histogram.Min < globalMin { ... }; if histogram.Max > globalMax { ... }`. -/
def rangeStep (acc : F64 × F64) (histogram : Histogram) : F64 × F64 :=
  (if F64.lt histogram.Min acc.1 then histogram.Min else acc.1,
   if F64.lt acc.2 histogram.Max then histogram.Max else acc.2)

/-- Loop computing `globalMin` and `globalMax` in `runHistogram`, from the initial values
`999999999.0` and `0.0`. -/
def globalRange (histograms : List Histogram) : F64 × F64 :=
  histograms.foldl rangeStep (F64.fin 999999999, F64.fin 0)

/-- Inner loop of the normalization in `runHistogram`:
`normalizedData[i] = (histogram.Data[i] - globalMin) / (globalMax - globalMin)`. -/
def normalizeData (globalMin globalMax : F64) (data : List F64) : List F64 :=
  data.map (fun v => F64.div (F64.sub v globalMin) (F64.sub globalMax globalMin))

/-- Histograms as the normalization loop of `runHistogram` serializes them. -/
def normalizeAll (histograms : List Histogram) : List Histogram :=
  histograms.map (fun histogram =>
    { histogram with
      Data := normalizeData (globalRange histograms).1 (globalRange histograms).2
        histogram.Data })

/-- Pixels visited by the two nested loops of `generateHistogram`, in visiting order. -/
def pixels (img : Image) : List (Nat × Nat) :=
  (List.range img.MaxX).flatMap (fun i => (List.range img.MaxY).map (fun j => (i, j)))

/-- Number of the pixels in `pix` whose bin under `f` is `k`, for each of the 256 bins. -/
def tally (f : Nat × Nat → Nat) (pix : List (Nat × Nat)) : List Nat :=
  (List.range 256).map (fun k => pix.countP (fun p => f p = k))

/-- Sum of a slice of float64 values, accumulated from the left. -/
def sumF64 (xs : List F64) : F64 :=
  xs.foldl F64.add (F64.fin 0)

/-- Bin index `rCurrent/256` of the pixel `p`. -/
def redBin (img : Image) (p : Nat × Nat) : Nat := (img.At p.1 p.2).1 / 256

/-- Bin index `gCurrent/256` of the pixel `p`. -/
def greenBin (img : Image) (p : Nat × Nat) : Nat := (img.At p.1 p.2).2.1 / 256

/-- Bin index `bCurrent/256` of the pixel `p`. -/
def blueBin (img : Image) (p : Nat × Nat) : Nat := (img.At p.1 p.2).2.2 / 256

/-- The three counter slices after the pixels `pix` have been counted. -/
def binsAfter (img : Image) (pix : List (Nat × Nat)) : List F64 × List F64 × List F64 :=
  ((tally (redBin img) pix).map F64.ofNat, (tally (greenBin img) pix).map F64.ofNat,
    (tally (blueBin img) pix).map F64.ofNat)

/-- Every channel sample of the image is a 16-bit value. -/
def Samples16 (img : Image) : Prop :=
  ∀ i j, (img.At i j).1 < 65536 ∧ (img.At i j).2.1 < 65536 ∧ (img.At i j).2.2 < 65536

/-- The fields `Min` and `Max` are the smallest and the largest of the histogram's own
bin counts, which are finite and non-negative. -/
def OwnMinMax (h : Histogram) : Prop :=
  ∃ mn mx : ℚ, h.Min = F64.fin mn ∧ h.Max = F64.fin mx ∧
    F64.fin mn ∈ h.Data ∧ F64.fin mx ∈ h.Data ∧
    ∀ v ∈ h.Data, ∃ q : ℚ, v = F64.fin q ∧ 0 ≤ q ∧ mn ≤ q ∧ q ≤ mx

/-- Histogram of an image without pixels: 768 empty bins. -/
def emptyImageHistogram : Histogram :=
  { FileName := ['e'], Data := List.replicate 768 (F64.fin 0), Min := F64.fin 0,
    Max := F64.fin 0, Classification := NoAurora }

/-- Bin counts of one channel in which bin 0 holds `2 * 10^9` pixels and each of the other
255 bins holds `10^9` pixels. -/
def crowdedChannel : List F64 :=
  F64.fin 2000000000 :: List.replicate 255 (F64.fin 1000000000)

/-- Histogram of an image of `257 * 10^9` pixels whose three channels are distributed as
`crowdedChannel`. -/
def crowdedHistogram : Histogram :=
  { FileName := ['c'], Data := (crowdedChannel ++ crowdedChannel) ++ crowdedChannel,
    Min := F64.fin 1000000000, Max := F64.fin 2000000000, Classification := Aurora }

/-- Histogram data of a 1x1 image whose red sample falls in bin `k` and whose green and
blue samples fall in bin 0: one pixel counted at indices `k`, `256` and `512`. -/
def onePixelData (k : Nat) : List F64 :=
  ((List.replicate 256 (F64.fin 0)).set k (F64.fin 1)
    ++ F64.fin 1 :: List.replicate 255 (F64.fin 0))
    ++ F64.fin 1 :: List.replicate 255 (F64.fin 0)

/-- Histogram of a 1x1 pure red image, labelled `Aurora`. -/
def redPixelHistogram : Histogram :=
  { FileName := ['r'], Data := onePixelData 255, Min := F64.fin 0, Max := F64.fin 1,
    Classification := Aurora }

/-- Histogram of a 1x1 pure black image, labelled `NoAurora`. -/
def blackPixelHistogram : Histogram :=
  { FileName := ['b'], Data := onePixelData 0, Min := F64.fin 0, Max := F64.fin 1,
    Classification := NoAurora }

/-- A 1x1 pure red image: the single sample triple is `(65535, 0, 0)`. -/
def redPixelImage : Image :=
  { MaxX := 1, MaxY := 1, At := fun _ _ => (65535, 0, 0) }

/-- A 1x1 pure black image: the single sample triple is `(0, 0, 0)`. -/
def blackPixelImage : Image :=
  { MaxX := 1, MaxY := 1, At := fun _ _ => (0, 0, 0) }

/-! ## histogram.go: the dataset text format -/

/-- Call `strconv.Itoa(n)`. -/
def Itoa (n : Int) : List Char :=
  if n < 0 then '-' :: Nat.toDigits 10 n.natAbs else Nat.toDigits 10 n.toNat

/-- Value of a decimal digit character. -/
def digitVal (c : Char) : Option Nat :=
  if 48 ≤ c.toNat ∧ c.toNat ≤ 57 then some (c.toNat - 48) else none

/-- Decimal value of a digit string, `none` when a character is not a digit. -/
def parseDigits : List Char → Nat → Option Nat
  | [], acc => some acc
  | c :: cs, acc =>
    match digitVal c with
    | none => none
    | some d => parseDigits cs (10 * acc + d)

/-- Magnitude parsed by `strconv.Atoi` after the optional sign: `none` on a syntax error
(no digits, or a character that is not a digit). -/
def parseMagnitude (ds : List Char) : Option Nat :=
  if ds = [] then none else parseDigits ds 0

/-- Value `class` of `class, _ := strconv.Atoi(s)`: the parsed integer, the nearest 64-bit
bound when it is out of range, and 0 on a syntax error. -/
def Atoi (s : List Char) : Int :=
  match s with
  | '-' :: ds =>
    match parseMagnitude ds with
    | none => 0
    | some n => if 9223372036854775808 < n then -9223372036854775808 else -(n : Int)
  | '+' :: ds =>
    match parseMagnitude ds with
    | none => 0
    | some n => if 9223372036854775807 < n then 9223372036854775807 else (n : Int)
  | ds =>
    match parseMagnitude ds with
    | none => 0
    | some n => if 9223372036854775807 < n then 9223372036854775807 else (n : Int)

/-- Rounding of a non-negative rational to the nearest integer, ties to even. -/
def roundHalfEven (q : ℚ) : Nat :=
  let lower := (Int.floor q).toNat
  let rest := q - lower
  if rest < 1 / 2 then lower
  else if 1 / 2 < rest then lower + 1
  else if lower % 2 = 0 then lower else lower + 1

/-- One value formatted by the verb `%0.10f`: sign, integer digits, a point and ten
fraction digits; `NaN`, `+Inf` and `-Inf` for the non-finite values. -/
def formatFloat10 : F64 → List Char
  | F64.nan => ['N', 'a', 'N']
  | F64.posInf => ['+', 'I', 'n', 'f']
  | F64.negInf => ['-', 'I', 'n', 'f']
  | F64.fin q =>
    let scaled := roundHalfEven (|q| * 10000000000)
    let fraction := Nat.toDigits 10 (scaled % 10000000000)
    (if q < 0 then ['-'] else [])
      ++ (Nat.toDigits 10 (scaled / 10000000000)
      ++ '.' :: (List.replicate (10 - fraction.length) '0' ++ fraction))

/-- Call `strings.Join(fields, " ")`. -/
def joinSpaces : List (List Char) → List Char
  | [] => []
  | [f] => f
  | f :: g :: fs => f ++ ' ' :: joinSpaces (g :: fs)

/-- Call `strings.Split(s, " ")`. -/
def splitSpaces : List Char → List (List Char)
  | [] => [[]]
  | c :: cs =>
    if c = ' ' then [] :: splitSpaces cs
    else
      match splitSpaces cs with
      | [] => [[c]]
      | f :: fs => (c :: f) :: fs

/-- Method `Histogram.Stringify`.  `fmt.Sprintf("%0.10f", hist.Data)` applies the verb to
each element of the slice and writes the results between brackets separated by single
spaces; `strings.Trim(_, "[]")` removes the brackets. -/
def Histogram.Stringify (hist : Histogram) : List Char :=
  Itoa hist.Classification ++ ' ' :: (joinSpaces (hist.Data.map formatFloat10)
    ++ ' ' :: hist.FileName)

/-- Body of the goroutine of `loadHistograms` that deserializes the line `hist`;
`parseFloat` gives the value of `strconv.ParseFloat(str, 64)`.  The slice expressions
`splittingMeSoftly[1:768]` and `splittingMeSoftly[769:]` panic on a line with fewer than
768, respectively 769, fields. -/
def loadLine (parseFloat : List Char → F64) (hist : List Char) : Option Histogram :=
  let splittingMeSoftly := splitSpaces hist
  match splittingMeSoftly[0]? with
  | none => none
  | some label =>
    if 768 ≤ splittingMeSoftly.length then
      let data := ((splittingMeSoftly.take 768).drop 1).map parseFloat
      if 769 ≤ splittingMeSoftly.length then
        some { Classification := Atoi label, Data := data,
               FileName := joinSpaces (splittingMeSoftly.drop 769),
               Min := F64.fin 0, Max := F64.fin 0 }
      else none
    else none

/-- Function `loadHistograms` on the lines returned by the scanner. -/
def loadHistograms (parseFloat : List Char → F64) (histogramImport : List (List Char)) :
    Option (List Histogram) :=
  histogramImport.mapM (loadLine parseFloat)

/-! ## perceptron.go: the trainer -/

/-- Floating-point arithmetic of the trainer, taken as a parameter: `add`, `mul` and `div`
are the float64 operations `+`, `*` and `/` as the machine rounds them, and `dot` is the
library function `mat.Dot`, whose order of summation the library chooses. -/
structure Arith where
  add : F64 → F64 → F64
  mul : F64 → F64 → F64
  div : F64 → F64 → F64
  dot : List F64 → List F64 → F64

/-- Arithmetic without rounding, with the sum of products taken from left to right. -/
def exactArith : Arith :=
  { add := F64.add, mul := F64.mul, div := F64.div,
    dot := fun u v => (List.zipWith F64.mul u v).foldl F64.add (F64.fin 0) }

/-- Call `mat.NewVecDense(n, data)` on a non-nil slice: panics when `n` is not positive or
differs from `len(data)`. -/
def NewVecDense (n : Nat) (data : List F64) : Option (List F64) :=
  if n = 0 then none else if data.length = n then some data else none

/-- Function `activation`. -/
def activation (num : F64) : Int :=
  if F64.lt num (F64.fin (1 / 2)) then 0 else 1

/-- Expression `activation(mat.Dot(u, v))` with `u` built from `histogram.Data` and `v` from
`weights`; panics when one of the two `NewVecDense` calls does. -/
def classify (ar : Arith) (featureLength : Nat) (weights : List F64) (histogram : Histogram) :
    Option Int :=
  match NewVecDense featureLength histogram.Data with
  | none => none
  | some u =>
    match NewVecDense featureLength weights with
    | none => none
    | some v => some (activation (ar.dot u v))

/-- Loop `for index := range weights` of the training pass, from position `index`:
`weights[index] += learningRate * float64(error) * float64(histogram.Data[index])`. -/
def updateWeights (ar : Arith) (learningRate : F64) (error : Int) (data : List F64) :
    List F64 → Nat → Option (List F64)
  | [], _ => some []
  | w :: ws, index =>
    match data[index]? with
    | none => none
    | some d =>
      match updateWeights ar learningRate error data ws (index + 1) with
      | none => none
      | some rest =>
        some (ar.add w (ar.mul (ar.mul learningRate (F64.ofInt error)) d) :: rest)

/-- Body of the loop over `trainingData` in one epoch; the state is `(weights, errorSet)`. -/
def trainExample (ar : Arith) (featureLength : Nat) (learningRate : F64)
    (state : List F64 × F64) (histogram : Histogram) : Option (List F64 × F64) :=
  match classify ar featureLength state.1 histogram with
  | none => none
  | some output =>
    let error := histogram.Classification - output
    match updateWeights ar learningRate error histogram.Data state.1 0 with
    | none => none
    | some weights => some (weights, ar.add state.2 (F64.ofInt error))

/-- Training pass of one epoch: the updated weights and the value stored in
`errors[epoch]`, which is `errorSet / float64(len(trainingData))`. -/
def trainEpoch (ar : Arith) (featureLength : Nat) (learningRate : F64) (weights : List F64)
    (training : List Histogram) : Option (List F64 × F64) :=
  match training.foldlM (trainExample ar featureLength learningRate) (weights, F64.fin 0) with
  | none => none
  | some (weights1, errorSet) =>
    some (weights1, ar.div errorSet (F64.ofNat training.length))

/-- Body of the loop over `validationData`: `validationSuccesses++` on a match. -/
def scoreExample (ar : Arith) (featureLength : Nat) (weights : List F64)
    (validationSuccesses : Nat) (histogram : Histogram) : Option Nat :=
  match classify ar featureLength weights histogram with
  | none => none
  | some output =>
    some (if histogram.Classification = output then validationSuccesses + 1
      else validationSuccesses)

/-- Loop over `validationData` counting `validationSuccesses`. -/
def countSuccesses (ar : Arith) (featureLength : Nat) (weights : List F64)
    (validation : List Histogram) : Option Nat :=
  validation.foldlM (scoreExample ar featureLength weights) 0

/-- Expression `100.0 * (float64(validationSuccesses) / float64(validationTotal))`. -/
def accuracyPercent (ar : Arith) (validationSuccesses validationTotal : Nat) : F64 :=
  ar.mul (F64.fin 100) (ar.div (F64.ofNat validationSuccesses) (F64.ofNat validationTotal))

/-- State of the epoch loop: the weights and the entries of `errors` and `accuracy` filled
so far. -/
structure TrainState where
  weights : List F64
  errors : List F64
  accuracy : List F64

/-- Loop `for epoch := 0; epoch < epochs; epoch++` of `runPerceptron`, with `remaining`
iterations left. -/
def epochLoop (ar : Arith) (featureLength : Nat) (learningRate : F64)
    (training validation : List Histogram) : Nat → TrainState → Option TrainState
  | 0, state => some state
  | remaining + 1, state =>
    match trainEpoch ar featureLength learningRate state.weights training with
    | none => none
    | some (weights1, errorSet) =>
      match countSuccesses ar featureLength weights1 validation with
      | none => none
      | some validationSuccesses =>
        epochLoop ar featureLength learningRate training validation remaining
          { weights := weights1, errors := state.errors ++ [errorSet],
            accuracy := state.accuracy
              ++ [accuracyPercent ar validationSuccesses validation.length] }

/-- What `runPerceptron` reports after training. -/
structure TrainReport where
  weights : List F64
  errors : List F64
  accuracy : List F64
  validationSuccesses : Nat
  finalAccuracy : F64
  resultString : List Char

/-- Loop building `resultString`: every weight formatted with `%0.10f` and followed by a
space. -/
def formatWeights (weights : List F64) : List Char :=
  weights.foldl (fun resultString weight => resultString ++ (formatFloat10 weight ++ [' '])) []

/-- Part of `runPerceptron` from the epoch loop on, for the initial `weights` (drawn by
`rand.Float64` in the program) and the parsed `learningRate` and `epochs`. -/
def trainAndReport (ar : Arith) (featureLength : Nat) (weights : List F64)
    (learningRate : F64) (epochs : Nat) (training validation : List Histogram) :
    Option TrainReport :=
  match epochLoop ar featureLength learningRate training validation epochs
      { weights := weights, errors := [], accuracy := [] } with
  | none => none
  | some state =>
    match countSuccesses ar featureLength state.weights validation with
    | none => none
    | some validationSuccesses =>
      some { weights := state.weights, errors := state.errors, accuracy := state.accuracy,
             validationSuccesses := validationSuccesses,
             finalAccuracy := accuracyPercent ar validationSuccesses validation.length,
             resultString := formatWeights state.weights }

/-! ### The trainer as the specification words it -/

/-- Specification: `activation(s)` is 1 if `s >= 0.5` and 0 otherwise, where the comparison
`>=` of float64 is false for NaN. -/
def statedActivation (s : F64) : Int :=
  if F64.lt s (F64.fin (1 / 2)) = false ∧ s ≠ F64.nan then 1 else 0

/-- Specification, as amended: `activation(s)` is 1 if `s >= 0.5` or `s` is NaN, and 0
otherwise. -/
def ruleActivation : F64 → Int
  | F64.fin q => if 1 / 2 ≤ q then 1 else 0
  | F64.nan => 1
  | F64.posInf => 1
  | F64.negInf => 0

/-- Specification: `output = activation(weights . data)`. -/
def ruleOutput (ar : Arith) (weights : List F64) (example1 : Histogram) : Int :=
  ruleActivation (ar.dot example1.Data weights)

/-- Specification: `error = label - output`. -/
def ruleError (ar : Arith) (weights : List F64) (example1 : Histogram) : Int :=
  example1.Classification - ruleOutput ar weights example1

/-- Specification: every `weights[i]` is replaced by
`weights[i] + learningRate * error * data[i]`. -/
def ruleUpdate (ar : Arith) (learningRate : F64) (weights : List F64) (example1 : Histogram) :
    List F64 :=
  List.zipWith
    (fun w d =>
      ar.add w (ar.mul (ar.mul learningRate (F64.ofInt (ruleError ar weights example1))) d))
    weights example1.Data

/-- Specification: the weights after the examples have been visited in order. -/
def ruleWeights (ar : Arith) (learningRate : F64) : List F64 → List Histogram → List F64
  | weights, [] => weights
  | weights, e :: rest =>
    ruleWeights ar learningRate (ruleUpdate ar learningRate weights e) rest

/-- Specification: the signed errors of the examples visited in order. -/
def ruleErrors (ar : Arith) (learningRate : F64) : List F64 → List Histogram → List Int
  | _, [] => []
  | weights, e :: rest =>
    ruleError ar weights e
      :: ruleErrors ar learningRate (ruleUpdate ar learningRate weights e) rest

/-- Specification: the float64 sum of the signed errors, accumulated in order from 0. -/
def ruleErrorSum (ar : Arith) (errors : List Int) : F64 :=
  errors.foldl (fun errorSet error => ar.add errorSet (F64.ofInt error)) (F64.fin 0)

/-- Specification: the number of validation examples whose label equals the output of the
activation on the dot product of their data with `weights`. -/
def ruleMatches (ar : Arith) (weights : List F64) (validation : List Histogram) : Nat :=
  validation.countP (fun e => decide (e.Classification = ruleOutput ar weights e))

/-- Specification: the weights after `epochs` training passes. -/
def ruleEpochs (ar : Arith) (learningRate : F64) (training : List Histogram) :
    Nat → List F64 → List F64
  | 0, weights => weights
  | epochs + 1, weights =>
    ruleEpochs ar learningRate training epochs (ruleWeights ar learningRate weights training)

/-- The rational `q` is a float64 value: `m * 2^e` with `|m| < 2^53` and
`-1074 <= e <= 971`. -/
def Binary64 (q : ℚ) : Prop :=
  ∃ m e : Int, |m| < 2 ^ 53 ∧ -1074 ≤ e ∧ e ≤ 971 ∧ q = (m : ℚ) * (2 : ℚ) ^ e

/-- Facts of float64 arithmetic that hold whatever the rounding and the order of summation
(the sign of a zero is not modelled): adding zero, multiplying by zero or by one, adding
small integers, doubling and halving are exact, and zero products do not contribute to a
dot product. -/
structure FloatLaws (ar : Arith) : Prop where
  add_zero : ∀ x, ar.add x (F64.fin 0) = x
  zero_add : ∀ x, ar.add (F64.fin 0) x = x
  mul_zero : ∀ q : ℚ, ar.mul (F64.fin q) (F64.fin 0) = F64.fin 0
  zero_mul : ∀ q : ℚ, ar.mul (F64.fin 0) (F64.fin q) = F64.fin 0
  mul_one : ∀ x, ar.mul x (F64.fin 1) = x
  one_mul : ∀ x, ar.mul (F64.fin 1) x = x
  add_int : ∀ a b : Int, |a| ≤ 2 ^ 52 → |b| ≤ 1 →
    ar.add (F64.ofInt a) (F64.ofInt b) = F64.ofInt (a + b)
  add_self : ∀ q : ℚ, Binary64 q → |q| ≤ 1 → ar.add (F64.fin q) (F64.fin q) = F64.fin (2 * q)
  div_two : ar.div (F64.fin 1) (F64.fin 2) = F64.fin (1 / 2)
  dot_zero : ∀ u v, (∀ p ∈ List.zipWith ar.mul u v, p = F64.fin 0) → ar.dot u v = F64.fin 0
  dot_two : ∀ u v a b, (∀ d ∈ u, d = F64.fin 0 ∨ d = F64.fin 1) →
    (List.zipWith ar.mul u v).filter (fun p => decide (p ≠ F64.fin 0)) = [a, b] →
    ar.dot u v = ar.add a b

/-- The float64 nearest to 0.1, which is `3602879701896397 / 2^55`. -/
def tenth : ℚ := 3602879701896397 / 36028797018963968

/-- Weights with the float64 0.1 at the indices 255, 256 and 512 and 0 elsewhere. -/
def redPixelWeights : List F64 :=
  (List.range 768).map
    (fun i => if i = 255 ∨ i = 256 ∨ i = 512 then F64.fin tenth else F64.fin 0)

/-! ## main.go and the command drivers -/

/-- Lines the program prints on standard output. -/
inductive Message where
  | specifyCommand
  | enterHistogramFile
  | finishedHistograms
  | loaded (file : List Char) (count : Nat)
  | split (total training validation : Nat)
  | validation (successes total : Nat) (accuracy : F64)
deriving DecidableEq

/-- Place of a run-time panic. -/
inductive PanicSite where
  | generateHistogram
  | filterBadImports
  | loadLine
  | shuffle
  | slice
  | trainingDataZero
  | osArgs (index : Nat)
  | makeSlice
  | newVecDense
deriving DecidableEq

/-- How the process ends. -/
inductive Status where
  | exit (code : Nat)
  | logFatal
  | panic (site : PanicSite)
  | returned
deriving DecidableEq

/-- Observable result of a run of the program. -/
structure Outcome where
  stdout : List Message
  datasetLoaded : Bool
  trained : Bool
  written : Option (List Char)
  status : Status
deriving DecidableEq

/-- What the program reads from its surroundings: `readLines` is the content of a file as
the scanner of `loadHistograms` returns it (`none` when the file cannot be read),
`readDir` the listing of a directory with the result of `image.Decode` for each file,
`parseFloat` the value of `strconv.ParseFloat`, `perm` the value of `rand.Perm`, `rand`
the successive values of `rand.Float64` and `arith` the float64 arithmetic of the trainer. -/
structure Env where
  readLines : List Char → Option (List (List Char))
  readDir : List Char → Option (List (List Char × Option Image))
  parseFloat : List Char → F64
  perm : Nat → List Nat
  rand : Nat → F64
  arith : Arith

/-- Outcome that ends the run with `status` and nothing written. -/
def stopped (stdout : List Message) (datasetLoaded : Bool) (status : Status) : Outcome :=
  { stdout := stdout, datasetLoaded := datasetLoaded, trained := false, written := none,
    status := status }

/-- First directory configured in `runHistogram`: `./images/aurora`, classified `Aurora`. -/
def auroraDirectory : Directory :=
  { DirectoryName := ['.', '/', 'i', 'm', 'a', 'g', 'e', 's', '/', 'a', 'u', 'r', 'o', 'r', 'a'],
    Classification := Aurora }

/-- Second directory configured in `runHistogram`: `./images/noaurora`, classified
`NoAurora`. -/
def noauroraDirectory : Directory :=
  { DirectoryName := ['.', '/', 'i', 'm', 'a', 'g', 'e', 's', '/', 'n', 'o', 'a', 'u', 'r', 'o',
      'r', 'a'],
    Classification := NoAurora }

/-- The two directories configured in `runHistogram`. -/
def directories : List Directory :=
  [auroraDirectory, noauroraDirectory]

/-- Loop over `directories` in `runHistogram`: the histograms collected, or the status that
ends the run. -/
def collectHistograms (env : Env) : List Directory → List Histogram → Except Status (List Histogram)
  | [], histograms => Except.ok histograms
  | directory :: rest, histograms =>
    match env.readDir directory.DirectoryName with
    | none => Except.error Status.logFatal
    | some files =>
      match files.mapM (fun f => (generateHistogram f.2).map (fun res => (f.1, res))) with
      | none => Except.error (Status.panic PanicSite.generateHistogram)
      | some results =>
        match importDirectory directory results with
        | none => Except.error (Status.panic PanicSite.filterBadImports)
        | some tempHistograms => collectHistograms env rest (histograms ++ tempHistograms)

/-- Accumulation of `histogramsSerialized` in `runHistogram`:
`histogramsSerialized += histogram.Stringify() + "\n"` for every normalized histogram. -/
def serializeHistograms (normalized : List Histogram) : List Char :=
  normalized.foldl
    (fun histogramsSerialized histogram =>
      histogramsSerialized ++ (histogram.Stringify ++ ['\n'])) []

/-- Function `runHistogram`; `written` is the content of `histograms.dat`. -/
def runHistogram (env : Env) : Outcome :=
  match collectHistograms env directories [] with
  | Except.error status => stopped [] false status
  | Except.ok histograms =>
    { stdout := [Message.finishedHistograms], datasetLoaded := false, trained := false,
      written := some (serializeHistograms (normalizeAll histograms)),
      status := Status.returned }

/-- Function `runPerceptron`; `written` is the content of the weights file.  The call
`make([]float64, epochs)` panics for a negative length and for a length above `2^45`, whose
size exceeds the address space of a 64-bit process. -/
def runPerceptron (env : Env) (args : List (List Char)) : Outcome :=
  if args.length < 3 then stopped [Message.enterHistogramFile] false (Status.exit 1)
  else
    match args[2]? with
    | none => stopped [] false (Status.panic (PanicSite.osArgs 2))
    | some file =>
      match env.readLines file with
      | none => stopped [] false Status.logFatal
      | some histogramImport =>
        match loadHistograms env.parseFloat histogramImport with
        | none => stopped [] false (Status.panic PanicSite.loadLine)
        | some loaded =>
          let stdout1 := [Message.loaded file loaded.length]
          match shuffleHistograms loaded (env.perm loaded.length) with
          | none => stopped stdout1 true (Status.panic PanicSite.shuffle)
          | some histograms =>
            match trainingData histograms, validationData histograms with
            | some training, some validation =>
              let stdout2 := stdout1
                ++ [Message.split histograms.length training.length validation.length]
              match featureLength training with
              | none => stopped stdout2 true (Status.panic PanicSite.trainingDataZero)
              | some n =>
                let weights := (List.range n).map env.rand
                match args[4]? with
                | none => stopped stdout2 true (Status.panic (PanicSite.osArgs 4))
                | some rateArg =>
                  match args[3]? with
                  | none => stopped stdout2 true (Status.panic (PanicSite.osArgs 3))
                  | some epochsArg =>
                    if Atoi epochsArg < 0 ∨ 35184372088832 < Atoi epochsArg then
                      stopped stdout2 true (Status.panic PanicSite.makeSlice)
                    else
                      match trainAndReport env.arith n weights (env.parseFloat rateArg)
                          (Atoi epochsArg).toNat training validation with
                      | none =>
                        { stdout := stdout2, datasetLoaded := true, trained := true,
                          written := none, status := Status.panic PanicSite.newVecDense }
                      | some report =>
                        { stdout := stdout2 ++ [Message.validation report.validationSuccesses
                            validation.length report.finalAccuracy],
                          datasetLoaded := true, trained := true,
                          written := some report.resultString, status := Status.returned }
            | _, _ => stopped stdout1 true (Status.panic PanicSite.slice)

/-- Function `main`; `args` is `os.Args`. -/
def main (env : Env) (args : List (List Char)) : Outcome :=
  if args.length < 2 then stopped [Message.specifyCommand] false (Status.exit 1)
  else
    match args[1]? with
    | none => stopped [] false (Status.panic (PanicSite.osArgs 1))
    | some command =>
      if command = ['p', 'r', 'e', 'p', 'a', 'r', 'e'] then runHistogram env
      else if command = ['r', 'u', 'n'] then runPerceptron env args
      else stopped [] false Status.returned

/-- Specification: the accuracy `100 * matches / |validationSet|` of `weights`, computed in
float64. -/
def ruleAccuracy (ar : Arith) (weights : List F64) (validation : List Histogram) : F64 :=
  ar.mul (F64.fin 100)
    (ar.div (F64.ofNat (ruleMatches ar weights validation)) (F64.ofNat validation.length))

/-- A 16x16 image whose pixel `(i, j)` is the grey level `16 * i + j` in all three channels
(sample `257 * (16 * i + j)`): every grey level occurs exactly once. -/
def gradientImage : Image :=
  { MaxX := 16, MaxY := 16,
    At := fun i j =>
      if i < 16 ∧ j < 16 then
        (257 * (16 * i + j), 257 * (16 * i + j), 257 * (16 * i + j))
      else (0, 0, 0) }

/-- Histogram of `gradientImage` in the directory `./images/aurora`: every bin holds one
pixel. -/
def gradientHistogram : Histogram :=
  { FileName := ['g', '.', 'p', 'n', 'g'], Data := List.replicate 768 (F64.fin 1),
    Min := F64.fin 1, Max := F64.fin 1, Classification := Aurora }

/-- Surroundings in which `./images/aurora` holds the single file `g.png`, decoded to
`gradientImage`, and `./images/noaurora` is empty. -/
def gradientEnv : Env :=
  { readLines := fun _ => none,
    readDir := fun directoryName =>
      if directoryName = auroraDirectory.DirectoryName then
        some [(['g', '.', 'p', 'n', 'g'], some gradientImage)]
      else some [],
    parseFloat := fun _ => F64.fin 0, perm := fun n => List.range n,
    rand := fun _ => F64.fin 0, arith := exactArith }

/-- Content of `histograms.dat` when the only record has the label 1, 768 values NaN and the
file name `g.png`. -/
def gradientFile : List Char :=
  ['1', ' '] ++ ((List.replicate 768 ['N', 'a', 'N', ' ']).flatMap id
    ++ ['g', '.', 'p', 'n', 'g', '\n'])

/-! ## Theorems -/

/-! ### Shuffle and split -/

theorem setSlot_eq_some {α : Type} (output : List α) (i : Nat) (v : α) (h : i < output.length) :
    setSlot output i v = some (output.set i v) := by
  simp [setSlot, h]

theorem shuffleLoop_spec (input : List Histogram) :
    ∀ (perm : List Nat) (index : Nat) (output : List Histogram),
      (∀ r ∈ perm, r < output.length) → index + perm.length ≤ input.length → perm.Nodup →
      ∃ out, shuffleLoop input perm index output = some out ∧ out.length = output.length ∧
        (∀ k, k < perm.length → ∀ r, perm[k]? = some r → out[r]? = input[index + k]?) ∧
        (∀ j, j ∉ perm → out[j]? = output[j]?) := by
  intro perm
  induction perm with
  | nil =>
    intro index output _ _ _
    exact ⟨output, rfl, rfl, by simp, by simp⟩
  | cons rand rest ih =>
    intro index output hr hlen hnd
    have hidx : index < input.length := by simp at hlen; omega
    have hrand : rand < output.length := hr rand (by simp)
    obtain ⟨hnotin, hnd1⟩ := List.nodup_cons.mp hnd
    obtain ⟨out, hout, hl, hk, hj⟩ := ih (index + 1) (output.set rand input[index])
      (by intro r hmem; simpa using hr r (by simp [hmem]))
      (by simp at hlen ⊢; omega) hnd1
    refine ⟨out, ?_, by simpa using hl, ?_, ?_⟩
    · simp [shuffleLoop, List.getElem?_eq_getElem hidx, setSlot_eq_some _ _ _ hrand, hout]
    · intro k hklt r hkr
      cases k with
      | zero =>
        simp at hkr
        subst hkr
        rw [hj _ hnotin]
        simp [List.getElem?_eq_getElem hidx, hrand]
      | succ k =>
        simp at hkr hklt
        have := hk k hklt r hkr
        rw [this]
        congr 1
        omega
    · intro j hjn
      simp at hjn
      rw [hj j hjn.2]
      rw [List.getElem?_set_ne (Ne.symm hjn.1)]

theorem shuffleHistograms_spec (input : List Histogram) (perm : List Nat)
    (hperm : perm.Perm (List.range input.length)) :
    ∃ out, shuffleHistograms input perm = some out ∧ out.length = input.length ∧
      (∀ k, k < perm.length → ∀ r, perm[k]? = some r → out[r]? = input[k]?) := by
  have hlen : perm.length = input.length := by simpa using hperm.length_eq
  obtain ⟨out, hout, hl, hk, _⟩ := shuffleLoop_spec input perm 0
    (List.replicate input.length Histogram.zero)
    (by intro r hr; simpa using (hperm.mem_iff.mp hr))
    (by omega) (hperm.nodup_iff.mpr (List.nodup_range _))
  refine ⟨out, hout, by simpa using hl, ?_⟩
  intro k hklt r hkr
  simpa using hk k hklt r hkr

theorem shuffle_perm_of_spec (input out : List Histogram) (perm : List Nat)
    (hperm : perm.Perm (List.range input.length)) (hl : out.length = input.length)
    (hk : ∀ k, k < perm.length → ∀ r, perm[k]? = some r → out[r]? = input[k]?) :
    out.Perm input := by
  have hlen : perm.length = input.length := by simpa using hperm.length_eq
  have h1 : out = (List.range input.length).map (fun j => out.getD j Histogram.zero) := by
    apply List.ext_getElem
    · simp [hl]
    · intro i h1 h2
      simp [List.getD_eq_getElem?_getD, List.getElem?_eq_getElem h1]
  have h2 : input = perm.map (fun j => out.getD j Histogram.zero) := by
    apply List.ext_getElem
    · simp [hlen]
    · intro i h1 h2
      have hp : i < perm.length := by omega
      have := hk i hp perm[i] (List.getElem?_eq_getElem hp)
      simp [List.getD_eq_getElem?_getD, this, List.getElem?_eq_getElem h1]
  rw [h1]
  conv_rhs => rw [h2]
  exact (hperm.symm).map _

theorem trainingSplit_eq (histograms : List Histogram) :
    trainingSplit histograms = ((4 * histograms.length / 5 : Nat) : Int) := by
  have hnn : (0 : ℚ) ≤ (histograms.length : ℚ) * (4 / 5) := by positivity
  simp only [trainingSplit, F64.ofNat, F64.mul, F64.toInt, if_pos hnn]
  rw [Int.floor_eq_iff]
  have hdm := Nat.div_add_mod (4 * histograms.length) 5
  have hmod := Nat.mod_lt (4 * histograms.length) (by norm_num : 5 > 0)
  generalize 4 * histograms.length / 5 = k at hdm ⊢
  generalize 4 * histograms.length % 5 = r at hdm hmod
  have hq : (4 : ℚ) * (histograms.length : ℚ) = 5 * (k : ℚ) + (r : ℚ) := by
    exact_mod_cast hdm.symm
  have hm : (r : ℚ) < 5 := by exact_mod_cast hmod
  have hm0 : (0 : ℚ) ≤ (r : ℚ) := by positivity
  simp only [Int.cast_natCast]
  constructor <;> linarith

theorem trainingSplit_le (histograms : List Histogram) :
    4 * histograms.length / 5 ≤ histograms.length := by
  omega

theorem trainingData_eq (histograms : List Histogram) :
    trainingData histograms = some (histograms.take (4 * histograms.length / 5)) := by
  have hle := trainingSplit_le histograms
  rw [trainingData, trainingSplit_eq, sliceTo]
  simp only [Int.toNat_ofNat]
  rw [if_pos ⟨Int.ofNat_nonneg _, hle⟩]

theorem validationData_eq (histograms : List Histogram) :
    validationData histograms = some (histograms.drop (4 * histograms.length / 5)) := by
  have hle := trainingSplit_le histograms
  rw [validationData, trainingSplit_eq, sliceFrom]
  simp only [Int.toNat_ofNat]
  rw [if_pos ⟨Int.ofNat_nonneg _, hle⟩]

/-- C8: for every permutation `perm` of `0..N-1`, `shuffleHistograms` returns a sequence of
length `N` that is a permutation of the input, slot `perm[k]` holding `input[k]`; the
training slice and the validation slice of `runPerceptron` taken from it occupy disjoint
positions (the first `|train|` and the remaining ones) and their concatenation is the
shuffled sequence. -/
theorem shuffle_split_partition (input : List Histogram) (perm : List Nat)
    (hperm : perm.Perm (List.range input.length)) :
    ∃ out train val,
      shuffleHistograms input perm = some out ∧
      out.length = input.length ∧ out.Perm input ∧
      (∀ k, k < perm.length → ∀ r, perm[k]? = some r → out[r]? = input[k]?) ∧
      trainingData out = some train ∧ validationData out = some val ∧
      train ++ val = out ∧ train.length + val.length = input.length ∧
      (∀ i, i < train.length → train[i]? = out[i]?) ∧
      (∀ j, j < val.length → val[j]? = out[train.length + j]?) := by
  obtain ⟨out, hout, hl, hk⟩ := shuffleHistograms_spec input perm hperm
  have hle := trainingSplit_le out
  refine ⟨out, out.take (4 * out.length / 5), out.drop (4 * out.length / 5), hout, hl,
    shuffle_perm_of_spec input out perm hperm hl hk, hk, trainingData_eq out,
    validationData_eq out, List.take_append_drop _ _, ?_, ?_, ?_⟩
  · simp only [List.length_take, List.length_drop]
    omega
  · intro i hi
    simp only [List.length_take] at hi
    rw [List.getElem?_take_of_lt (by omega)]
  · intro j _
    simp only [List.length_take, List.getElem?_drop]
    congr 1
    omega

/-- Instance of `shuffle_split_partition`: five histograms and the permutation 3,0,4,1,2. -/
theorem shuffle_split_partition_witness :
    ∃ out train val,
      shuffleHistograms
        ((List.range 5).map (fun i => { Histogram.zero with Classification := i }))
        [3, 0, 4, 1, 2] = some out ∧
      out.length = ((List.range 5).map
        (fun i => ({ Histogram.zero with Classification := i } : Histogram))).length ∧
      out.Perm ((List.range 5).map (fun i => { Histogram.zero with Classification := i })) ∧
      (∀ k, k < [3, 0, 4, 1, 2].length → ∀ r, [3, 0, 4, 1, 2][k]? = some r →
        out[r]? = ((List.range 5).map
          (fun i => ({ Histogram.zero with Classification := i } : Histogram)))[k]?) ∧
      trainingData out = some train ∧ validationData out = some val ∧
      train ++ val = out ∧
      train.length + val.length = ((List.range 5).map
        (fun i => ({ Histogram.zero with Classification := i } : Histogram))).length ∧
      (∀ i, i < train.length → train[i]? = out[i]?) ∧
      (∀ j, j < val.length → val[j]? = out[train.length + j]?) :=
  shuffle_split_partition _ [3, 0, 4, 1, 2] (by decide)

theorem featureLength_isSome_iff (training : List Histogram) :
    (featureLength training).isSome = true ↔ training ≠ [] := by
  cases training <;> simp [featureLength]

/-- C10: for a loaded dataset of `N` histograms the training partition of `runPerceptron`
has exactly `floor(0.8 * N)` elements and the validation partition the other
`N - floor(0.8 * N)`; the training partition is non-empty exactly when `N >= 2`, the
validation partition exactly when `N >= 1`; for `N >= 2` the lookup `trainingData[0]`
succeeds and both sizes used as divisors are non-zero, for `N <= 1` the lookup
`trainingData[0]` is out of range. -/
theorem partition_sizes (histograms : List Histogram) :
    ∃ train val,
      trainingData histograms = some train ∧ validationData histograms = some val ∧
      (train.length : Int) = Int.floor ((4 / 5 : ℚ) * (histograms.length : ℚ)) ∧
      val.length = histograms.length - train.length ∧
      (train ≠ [] ↔ 2 ≤ histograms.length) ∧
      (val ≠ [] ↔ 1 ≤ histograms.length) ∧
      (2 ≤ histograms.length →
        (featureLength train).isSome = true ∧
        F64.ofNat train.length ≠ F64.fin 0 ∧ F64.ofNat val.length ≠ F64.fin 0) ∧
      (histograms.length ≤ 1 → featureLength train = none) := by
  have hle := trainingSplit_le histograms
  have htl : (histograms.take (4 * histograms.length / 5)).length = 4 * histograms.length / 5 := by
    simp only [List.length_take]
    omega
  have hvl : (histograms.drop (4 * histograms.length / 5)).length
      = histograms.length - 4 * histograms.length / 5 := by
    simp only [List.length_drop]
  have hne : ∀ l : List Histogram, l ≠ [] ↔ l.length ≠ 0 := by
    intro l
    simp
  refine ⟨_, _, trainingData_eq histograms, validationData_eq histograms, ?_, ?_, ?_, ?_, ?_, ?_⟩
  · rw [htl]
    have h := trainingSplit_eq histograms
    have hnn : (0 : ℚ) ≤ (histograms.length : ℚ) * (4 / 5) := by positivity
    simp only [trainingSplit, F64.ofNat, F64.mul, F64.toInt, if_pos hnn] at h
    rw [mul_comm (4 / 5 : ℚ), h]
  · rw [htl, hvl]
  · rw [hne, htl]
    omega
  · rw [hne, hvl]
    omega
  · intro h2
    refine ⟨?_, ?_, ?_⟩
    · rw [featureLength_isSome_iff, hne, htl]
      omega
    · rw [htl]
      simp only [F64.ofNat, ne_eq, F64.fin.injEq, Nat.cast_eq_zero]
      omega
    · rw [hvl]
      simp only [F64.ofNat, ne_eq, F64.fin.injEq, Nat.cast_eq_zero]
      omega
  · intro h1
    have h0 : histograms.take (4 * histograms.length / 5) = [] := by
      rw [← List.length_eq_zero, htl]
      omega
    rw [h0]
    rfl

/-! ### The filter over `badImports` -/

/-- C2 (the code departs from the claim): with two files that both fail to decode, the
filter loop of `runHistogram` performs an out-of-range slice access at index 1; with four
files of which the first two fail, it terminates but keeps the zero-valued slot of the second
file and removes the successfully extracted third one. -/
theorem filterBadImports_two_failures :
    importDirectory ⟨['d'], Aurora⟩
        [(['a'], Extraction.decodeError), (['b'], Extraction.decodeError)] = none ∧
    importDirectory ⟨['d'], Aurora⟩
        [(['a'], Extraction.decodeError), (['b'], Extraction.decodeError),
         (['c'], Extraction.ok [F64.fin 1] (F64.fin 1) (F64.fin 1)),
         (['e'], Extraction.ok [F64.fin 2] (F64.fin 2) (F64.fin 2))]
      = some [Histogram.zero,
          { FileName := ['e'], Data := [F64.fin 2], Min := F64.fin 2, Max := F64.fin 2,
            Classification := Aurora }] := by
  constructor <;> rfl

/-! ### Histogram shape and mass -/

theorem sum_indicator_range (c n : Nat) :
    ((List.range n).map (fun k => if c = k then 1 else 0)).sum = if c < n then 1 else 0 := by
  induction n with
  | zero => simp
  | succ n ih =>
    rw [List.range_succ, List.map_append, List.sum_append, ih]
    by_cases h1 : c < n
    · have h2 : c ≠ n := by omega
      have h3 : c < n + 1 := by omega
      simp [h1, h2, h3]
    · by_cases h2 : c = n
      · simp [h2]
      · have h3 : ¬ c < n + 1 := by omega
        simp [h1, h2, h3]

theorem tally_length (f : Nat × Nat → Nat) (pix : List (Nat × Nat)) :
    (tally f pix).length = 256 := by
  simp only [tally, List.length_map, List.length_range]

theorem tally_nil (f : Nat × Nat → Nat) : tally f [] = List.replicate 256 0 := by
  apply List.ext_getElem
  · simp only [tally, List.length_map, List.length_range, List.length_replicate]
  · intro i h1 h2
    simp only [tally, List.getElem_map, List.countP_nil, List.getElem_replicate]

theorem tally_getElem? (f : Nat × Nat → Nat) (pix : List (Nat × Nat)) (k : Nat) (hk : k < 256) :
    (tally f pix)[k]? = some (pix.countP (fun p => f p = k)) := by
  simp [tally, List.getElem?_map, List.getElem?_range hk]

theorem tally_snoc (f : Nat × Nat → Nat) (pix : List (Nat × Nat)) (p : Nat × Nat) :
    tally f (pix ++ [p]) = (tally f pix).set (f p) (pix.countP (fun q => f q = f p) + 1) := by
  apply List.ext_getElem
  · simp only [tally, List.length_map, List.length_range, List.length_set]
  · intro k h1 h2
    simp only [tally, List.getElem_map, List.getElem_range, List.getElem_set, List.countP_append,
      List.countP_cons, List.countP_nil]
    by_cases hk : f p = k
    · simp [hk]
    · simp [hk]

theorem tally_sum (f : Nat × Nat → Nat) (pix : List (Nat × Nat))
    (hf : ∀ p ∈ pix, f p < 256) : (tally f pix).sum = pix.length := by
  induction pix with
  | nil =>
    rw [tally_nil, List.sum_replicate]
    rfl
  | cons p pix ih =>
    have ih1 := ih (fun q hq => hf q (by simp [hq]))
    have hp : f p < 256 := hf p (by simp)
    have hsplit : tally f (p :: pix)
        = (List.range 256).map (fun k => pix.countP (fun q => f q = k)
            + (if f p = k then 1 else 0)) := by
      simp only [tally]
      apply List.map_congr_left
      intro k _
      rw [List.countP_cons]
      simp
    rw [hsplit, List.sum_map_add, sum_indicator_range, if_pos hp]
    simp only [tally] at ih1
    rw [ih1]
    simp

theorem incrBin_tally (f : Nat × Nat → Nat) (pix : List (Nat × Nat)) (p : Nat × Nat)
    (hp : f p < 256) :
    incrBin ((tally f pix).map F64.ofNat) (f p) = some ((tally f (pix ++ [p])).map F64.ofNat) := by
  have h1 : ((tally f pix).map F64.ofNat)[f p]?
      = some (F64.ofNat (pix.countP (fun q => f q = f p))) := by
    rw [List.getElem?_map, tally_getElem? f pix (f p) hp]
    rfl
  rw [incrBin, h1, tally_snoc f pix p, List.map_set]
  simp [F64.ofNat, F64.add]

theorem countPixel_binsAfter (img : Image) (h16 : Samples16 img) (pix : List (Nat × Nat))
    (i j : Nat) :
    countPixel img i (binsAfter img pix) j = some (binsAfter img (pix ++ [(i, j)])) := by
  obtain ⟨hr, hg, hb⟩ := h16 i j
  have h1 := incrBin_tally (redBin img) pix (i, j) (by simp only [redBin]; omega)
  have h2 := incrBin_tally (greenBin img) pix (i, j) (by simp only [greenBin]; omega)
  have h3 := incrBin_tally (blueBin img) pix (i, j) (by simp only [blueBin]; omega)
  simp only [redBin, greenBin, blueBin] at h1 h2 h3
  simp only [countPixel, binsAfter, h1, h2, h3]

theorem countColumn_binsAfter (img : Image) (h16 : Samples16 img) (i : Nat) :
    ∀ (js : List Nat) (pix : List (Nat × Nat)),
      js.foldlM (countPixel img i) (binsAfter img pix)
        = some (binsAfter img (pix ++ js.map (fun j => (i, j)))) := by
  intro js
  induction js with
  | nil => intro pix; simp
  | cons j js ih =>
    intro pix
    rw [List.foldlM_cons, countPixel_binsAfter img h16]
    simp only [Option.bind_eq_bind, Option.some_bind]
    rw [ih]
    simp

theorem countImage_binsAfter (img : Image) (h16 : Samples16 img) :
    ∀ (cols : List Nat) (pix : List (Nat × Nat)),
      cols.foldlM (countColumn img) (binsAfter img pix)
        = some (binsAfter img
            (pix ++ cols.flatMap (fun i => (List.range img.MaxY).map (fun j => (i, j))))) := by
  intro cols
  induction cols with
  | nil => intro pix; simp
  | cons i cols ih =>
    intro pix
    rw [List.foldlM_cons, countColumn, countColumn_binsAfter img h16]
    simp only [Option.bind_eq_bind, Option.some_bind]
    rw [ih]
    simp

theorem countImage_eq (img : Image) (h16 : Samples16 img) :
    countImage img = some (binsAfter img (pixels img)) := by
  have h := countImage_binsAfter img h16 (List.range img.MaxX) []
  have h0 : binsAfter img [] = (List.replicate 256 (F64.fin 0), List.replicate 256 (F64.fin 0),
      List.replicate 256 (F64.fin 0)) := by
    simp only [binsAfter, tally_nil, List.map_replicate]
    rfl
  rw [h0] at h
  rw [countImage, h]
  rfl

theorem pixels_length (img : Image) : (pixels img).length = img.MaxX * img.MaxY := by
  have h : (List.length ∘ fun (i : Nat) => List.map (fun j => (i, j)) (List.range img.MaxY))
      = fun _ => img.MaxY := by
    funext i
    simp
  simp only [pixels, List.length_flatMap, h]
  simp

theorem sumF64_ofNat (l : List Nat) : sumF64 (l.map F64.ofNat) = F64.ofNat l.sum := by
  have h : ∀ (l : List Nat) (acc : Nat),
      List.foldl F64.add (F64.ofNat acc) (l.map F64.ofNat) = F64.ofNat (acc + l.sum) := by
    intro l
    induction l with
    | nil => intro acc; simp
    | cons x l ih =>
      intro acc
      simp only [List.map_cons, List.foldl_cons, List.sum_cons]
      have hx : F64.add (F64.ofNat acc) (F64.ofNat x) = F64.ofNat (acc + x) := by
        simp [F64.add, F64.ofNat]
      rw [hx, ih, Nat.add_assoc]
  have h0 := h l 0
  simp only [Nat.zero_add] at h0
  rw [sumF64, ← h0]
  simp [F64.ofNat]

theorem sortFloat64s_length (xs : List F64) : (sortFloat64s xs).length = xs.length := by
  simp only [sortFloat64s, List.length_insertionSort]

theorem generateHistogram_eq (img : Image) (h16 : Samples16 img) :
    ∃ mn mx, generateHistogram (some img)
      = some (Extraction.ok
          ((tally (redBin img) (pixels img) ++ tally (greenBin img) (pixels img)
            ++ tally (blueBin img) (pixels img)).map F64.ofNat) mn mx) := by
  have hlen : (sortFloat64s (((tally (redBin img) (pixels img)).map F64.ofNat
      ++ (tally (greenBin img) (pixels img)).map F64.ofNat)
      ++ (tally (blueBin img) (pixels img)).map F64.ofNat)).length = 768 := by
    rw [sortFloat64s_length]
    simp only [List.length_append, List.length_map, tally_length]
  generalize hs : sortFloat64s (((tally (redBin img) (pixels img)).map F64.ofNat
      ++ (tally (greenBin img) (pixels img)).map F64.ofNat)
      ++ (tally (blueBin img) (pixels img)).map F64.ofNat) = sorted at hlen
  have hpos : 0 < sorted.length := by omega
  have hlast : sorted.length - 1 < sorted.length := by omega
  obtain ⟨lo, h0⟩ : ∃ lo, sorted[0]? = some lo := ⟨_, List.getElem?_eq_getElem hpos⟩
  obtain ⟨hi, h1⟩ : ∃ hi, sorted[sorted.length - 1]? = some hi :=
    ⟨_, List.getElem?_eq_getElem hlast⟩
  refine ⟨lo, hi, ?_⟩
  simp only [generateHistogram, countImage_eq img h16, binsAfter, hs, h0, h1, List.map_append]

/-- C5: for every decoded image whose channel samples are 16-bit values, with width
`MaxX` and height `MaxY`, `generateHistogram` returns (without an out-of-range bin
access) a vector of length exactly 768 whose entries `k`, `256 + k` and `512 + k` are the
numbers of pixels whose red, green and blue sample divided by 256 is `k`, and whose first,
second and third block of 256 entries each sum to `MaxX * MaxY`. -/
theorem generateHistogram_shape_mass (img : Image) (h16 : Samples16 img) :
    ∃ values mn mx,
      generateHistogram (some img) = some (Extraction.ok values mn mx) ∧
      values.length = 768 ∧
      sumF64 (values.take 256) = F64.ofNat (img.MaxX * img.MaxY) ∧
      sumF64 ((values.drop 256).take 256) = F64.ofNat (img.MaxX * img.MaxY) ∧
      sumF64 (values.drop 512) = F64.ofNat (img.MaxX * img.MaxY) ∧
      ∀ k, k < 256 →
        values[k]? = some (F64.ofNat
          ((pixels img).countP (fun p => (img.At p.1 p.2).1 / 256 = k))) ∧
        values[256 + k]? = some (F64.ofNat
          ((pixels img).countP (fun p => (img.At p.1 p.2).2.1 / 256 = k))) ∧
        values[512 + k]? = some (F64.ofNat
          ((pixels img).countP (fun p => (img.At p.1 p.2).2.2 / 256 = k))) := by
  obtain ⟨mn, mx, hgen⟩ := generateHistogram_eq img h16
  have hr : ∀ p ∈ pixels img, redBin img p < 256 := by
    intro p _
    have := (h16 p.1 p.2).1
    simp only [redBin]
    omega
  have hg : ∀ p ∈ pixels img, greenBin img p < 256 := by
    intro p _
    have := (h16 p.1 p.2).2.1
    simp only [greenBin]
    omega
  have hb : ∀ p ∈ pixels img, blueBin img p < 256 := by
    intro p _
    have := (h16 p.1 p.2).2.2
    simp only [blueBin]
    omega
  have hlr := tally_length (redBin img) (pixels img)
  have hlg := tally_length (greenBin img) (pixels img)
  have hlb := tally_length (blueBin img) (pixels img)
  have hsr := tally_sum (redBin img) (pixels img) hr
  have hsg := tally_sum (greenBin img) (pixels img) hg
  have hsb := tally_sum (blueBin img) (pixels img) hb
  rw [pixels_length] at hsr hsg hsb
  generalize htr : tally (redBin img) (pixels img) = r at hgen hlr hsr
  generalize htg : tally (greenBin img) (pixels img) = g at hgen hlg hsg
  generalize htb : tally (blueBin img) (pixels img) = b at hgen hlb hsb
  refine ⟨_, mn, mx, hgen, ?_, ?_, ?_, ?_, ?_⟩
  · simp only [List.length_map, List.length_append, hlr, hlg, hlb]
  · have : ((r ++ g ++ b).map F64.ofNat).take 256 = r.map F64.ofNat := by
      rw [← List.map_take, List.append_assoc, List.take_left' hlr]
    rw [this, sumF64_ofNat, hsr]
  · have : (((r ++ g ++ b).map F64.ofNat).drop 256).take 256 = g.map F64.ofNat := by
      rw [← List.map_drop, ← List.map_take, List.append_assoc, List.drop_left' hlr,
        List.take_left' hlg]
    rw [this, sumF64_ofNat, hsg]
  · have : ((r ++ g ++ b).map F64.ofNat).drop 512 = b.map F64.ofNat := by
      rw [← List.map_drop, List.drop_left' (by simp only [List.length_append, hlr, hlg])]
    rw [this, sumF64_ofNat, hsb]
  · intro k hk
    have hkr := tally_getElem? (redBin img) (pixels img) k hk
    have hkg := tally_getElem? (greenBin img) (pixels img) k hk
    have hkb := tally_getElem? (blueBin img) (pixels img) k hk
    rw [htr] at hkr
    rw [htg] at hkg
    rw [htb] at hkb
    simp only [redBin] at hkr
    simp only [greenBin] at hkg
    simp only [blueBin] at hkb
    refine ⟨?_, ?_, ?_⟩
    · rw [List.getElem?_map, List.append_assoc, List.getElem?_append_left (by omega), hkr]
      rfl
    · rw [List.getElem?_map, List.append_assoc, List.getElem?_append_right (by omega),
        List.getElem?_append_left (by omega), hlr]
      simp only [Nat.add_sub_cancel_left, hkg]
      rfl
    · rw [List.getElem?_map, List.getElem?_append_right
        (by simp only [List.length_append]; omega)]
      simp only [List.length_append, hlr, hlg]
      simp only [Nat.add_sub_cancel_left, hkb]
      rfl

/-! ### Corpus normalization -/

theorem rangeStep_fin (a b mn mx : ℚ) (h : Histogram) (hmn : h.Min = F64.fin mn)
    (hmx : h.Max = F64.fin mx) :
    rangeStep (F64.fin a, F64.fin b) h
      = (F64.fin (if mn < a then mn else a), F64.fin (if b < mx then mx else b)) := by
  simp only [rangeStep, hmn, hmx, F64.lt, decide_eq_true_eq]
  split_ifs <;> rfl

theorem globalRange_fold (hs : List Histogram) :
    ∀ (a b : ℚ), (∀ h ∈ hs, ∃ mn mx : ℚ, h.Min = F64.fin mn ∧ h.Max = F64.fin mx) →
      ∃ a1 b1 : ℚ, hs.foldl rangeStep (F64.fin a, F64.fin b) = (F64.fin a1, F64.fin b1) ∧
        a1 ≤ a ∧ b ≤ b1 ∧
        (∀ h ∈ hs, ∀ mn mx : ℚ, h.Min = F64.fin mn → h.Max = F64.fin mx → a1 ≤ mn ∧ mx ≤ b1) ∧
        (a1 = a ∨ ∃ h ∈ hs, h.Min = F64.fin a1) ∧
        (b1 = b ∨ ∃ h ∈ hs, h.Max = F64.fin b1) := by
  induction hs with
  | nil =>
    intro a b _
    exact ⟨a, b, rfl, le_refl _, le_refl _, by simp, Or.inl rfl, Or.inl rfl⟩
  | cons h hs ih =>
    intro a b hfin
    obtain ⟨mn, mx, hmn, hmx⟩ := hfin h (by simp)
    obtain ⟨a1, b1, hfold, ha, hb, hall, hamin, hbmax⟩ :=
      ih (if mn < a then mn else a) (if b < mx then mx else b)
        (fun h1 hh1 => hfin h1 (by simp [hh1]))
    have ha2 : (if mn < a then mn else a) ≤ a ∧ (if mn < a then mn else a) ≤ mn := by
      split_ifs with hlt
      · exact ⟨le_of_lt hlt, le_refl _⟩
      · exact ⟨le_refl _, not_lt.mp hlt⟩
    have hb2 : b ≤ (if b < mx then mx else b) ∧ mx ≤ (if b < mx then mx else b) := by
      split_ifs with hlt
      · exact ⟨le_of_lt hlt, le_refl _⟩
      · exact ⟨le_refl _, not_lt.mp hlt⟩
    refine ⟨a1, b1, ?_, le_trans ha ha2.1, le_trans hb2.1 hb, ?_, ?_, ?_⟩
    · rw [List.foldl_cons, rangeStep_fin a b mn mx h hmn hmx, hfold]
    · intro h1 hh1 mn1 mx1 hmn1 hmx1
      rcases List.mem_cons.mp hh1 with heq | hmem
      · subst heq
        rw [hmn] at hmn1
        rw [hmx] at hmx1
        cases hmn1
        cases hmx1
        exact ⟨le_trans ha ha2.2, le_trans hb2.2 hb⟩
      · exact hall h1 hmem mn1 mx1 hmn1 hmx1
    · rcases hamin with heq | ⟨h1, hh1, hh2⟩
      · by_cases hlt : mn < a
        · right
          refine ⟨h, by simp, ?_⟩
          rw [hmn, heq, if_pos hlt]
        · left
          rw [heq, if_neg hlt]
      · exact Or.inr ⟨h1, by simp [hh1], hh2⟩
    · rcases hbmax with heq | ⟨h1, hh1, hh2⟩
      · by_cases hlt : b < mx
        · right
          refine ⟨h, by simp, ?_⟩
          rw [hmx, heq, if_pos hlt]
        · left
          rw [heq, if_neg hlt]
      · exact Or.inr ⟨h1, by simp [hh1], hh2⟩

theorem normalize_fin (q gmin gmax : ℚ) (hne : gmin ≠ gmax) :
    F64.div (F64.sub (F64.fin q) (F64.fin gmin)) (F64.sub (F64.fin gmax) (F64.fin gmin))
      = F64.fin ((q - gmin) / (gmax - gmin)) := by
  have hd : gmax + -gmin ≠ 0 := by
    intro h
    apply hne
    linarith
  simp only [F64.sub, F64.neg, F64.add, F64.div, if_neg hd]
  rw [sub_eq_add_neg, sub_eq_add_neg]

theorem mem_normalizeAll (hs : List Histogram) (h1 : Histogram) :
    h1 ∈ normalizeAll hs ↔ ∃ h ∈ hs, h1 =
      { h with Data := normalizeData (globalRange hs).1 (globalRange hs).2 h.Data } := by
  simp only [normalizeAll, List.mem_map]
  constructor
  · rintro ⟨h, hh, heq⟩
    exact ⟨h, hh, heq.symm⟩
  · rintro ⟨h, hh, heq⟩
    exact ⟨h, hh, heq.symm⟩

theorem globalRange_own (hs : List Histogram) (hne : hs ≠ [])
    (hown : ∀ h ∈ hs, OwnMinMax h)
    (hsent : ∃ h ∈ hs, ∃ mn : ℚ, h.Min = F64.fin mn ∧ mn ≤ 999999999) :
    ∃ gmin gmax : ℚ, globalRange hs = (F64.fin gmin, F64.fin gmax) ∧
      (∀ h ∈ hs, ∀ v ∈ h.Data, ∃ q : ℚ, v = F64.fin q ∧ gmin ≤ q ∧ q ≤ gmax) ∧
      (∃ h ∈ hs, F64.fin gmin ∈ h.Data) ∧ (∃ h ∈ hs, F64.fin gmax ∈ h.Data) := by
  obtain ⟨a1, b1, hfold, ha, hb, hall, hamin, hbmax⟩ := globalRange_fold hs 999999999 0
    (fun h hh => by
      obtain ⟨mn, mx, h1, h2, _⟩ := hown h hh
      exact ⟨mn, mx, h1, h2⟩)
  refine ⟨a1, b1, hfold, ?_, ?_, ?_⟩
  · intro h hh v hv
    obtain ⟨mn, mx, h1, h2, _, _, hdata⟩ := hown h hh
    obtain ⟨q, hq, _, hq1, hq2⟩ := hdata v hv
    obtain ⟨h3, h4⟩ := hall h hh mn mx h1 h2
    exact ⟨q, hq, le_trans h3 hq1, le_trans hq2 h4⟩
  · rcases hamin with heq | ⟨h, hh, hmin⟩
    · obtain ⟨h, hh, mn, hmn, hle⟩ := hsent
      obtain ⟨mn1, mx1, h1, h2, hmem, _, _⟩ := hown h hh
      obtain ⟨h3, _⟩ := hall h hh mn1 mx1 h1 h2
      have hmm : mn1 = mn := by
        rw [h1] at hmn
        cases hmn
        rfl
      have : mn1 = a1 := by
        rw [hmm]
        rw [hmm] at h3
        rw [heq] at h3 ⊢
        exact le_antisymm hle h3
      exact ⟨h, hh, by rw [← this]; exact hmem⟩
    · obtain ⟨mn1, mx1, h1, h2, hmem, _, _⟩ := hown h hh
      rw [h1] at hmin
      cases hmin
      exact ⟨h, hh, hmem⟩
  · rcases hbmax with heq | ⟨h, hh, hmax⟩
    · obtain ⟨h, hh⟩ := List.exists_mem_of_ne_nil hs hne
      obtain ⟨mn1, mx1, h1, h2, _, hmem, hdata⟩ := hown h hh
      obtain ⟨_, h4⟩ := hall h hh mn1 mx1 h1 h2
      obtain ⟨q, hq, hq0, _, _⟩ := hdata _ hmem
      cases hq
      have : mx1 = b1 := by
        rw [heq] at h4 ⊢
        exact le_antisymm h4 hq0
      exact ⟨h, hh, by rw [← this]; exact hmem⟩
    · obtain ⟨mn1, mx1, h1, h2, _, hmem, _⟩ := hown h hh
      rw [h2] at hmax
      cases hmax
      exact ⟨h, hh, hmem⟩

/-- C4 (amended): for every non-empty corpus of histograms whose `Min` and `Max` are the
smallest and largest of their own non-negative bin counts, whose computed global minimum
differs from the global maximum, and in which some histogram has `Min` at most 999999999
(the initial value of `globalMin`), the pair computed by `runHistogram` is the true minimum
and maximum over all bin counts of the corpus, every normalized value `d` satisfies
`0 <= d <= 1`, some normalized value is 0 and some normalized value is 1. -/
theorem normalization_range (hs : List Histogram) (hne : hs ≠ [])
    (hown : ∀ h ∈ hs, OwnMinMax h)
    (hdiff : (globalRange hs).1 ≠ (globalRange hs).2)
    (hsent : ∃ h ∈ hs, ∃ mn : ℚ, h.Min = F64.fin mn ∧ mn ≤ 999999999) :
    ∃ gmin gmax : ℚ, globalRange hs = (F64.fin gmin, F64.fin gmax) ∧
      (∀ h ∈ hs, ∀ v ∈ h.Data, ∃ q : ℚ, v = F64.fin q ∧ gmin ≤ q ∧ q ≤ gmax) ∧
      (∃ h ∈ hs, F64.fin gmin ∈ h.Data) ∧ (∃ h ∈ hs, F64.fin gmax ∈ h.Data) ∧
      (∀ h ∈ normalizeAll hs, ∀ d ∈ h.Data, ∃ q : ℚ, d = F64.fin q ∧ 0 ≤ q ∧ q ≤ 1) ∧
      (∃ h ∈ normalizeAll hs, F64.fin 0 ∈ h.Data) ∧
      (∃ h ∈ normalizeAll hs, F64.fin 1 ∈ h.Data) := by
  obtain ⟨gmin, gmax, hrange, hbounds, hlo, hhi⟩ := globalRange_own hs hne hown hsent
  have hneq : gmin ≠ gmax := by
    intro h
    apply hdiff
    rw [hrange, h]
  have hlt : gmin < gmax := by
    obtain ⟨h, hh, hmem⟩ := hlo
    obtain ⟨q, _, h1, h2⟩ := hbounds h hh _ hmem
    exact lt_of_le_of_ne (le_trans h1 h2) hneq
  have hpos : 0 < gmax - gmin := by linarith
  refine ⟨gmin, gmax, hrange, hbounds, hlo, hhi, ?_, ?_, ?_⟩
  · intro h1 hh1 d hd
    obtain ⟨h, hh, heq⟩ := (mem_normalizeAll hs h1).mp hh1
    subst heq
    simp only [normalizeData, List.mem_map, hrange] at hd
    obtain ⟨v, hv, hvd⟩ := hd
    obtain ⟨q, hq, hq1, hq2⟩ := hbounds h hh v hv
    subst hq
    rw [normalize_fin q gmin gmax hneq] at hvd
    refine ⟨_, hvd.symm, ?_, ?_⟩
    · exact div_nonneg (by linarith) (le_of_lt hpos)
    · rw [div_le_one hpos]
      linarith
  · obtain ⟨h, hh, hmem⟩ := hlo
    refine ⟨_, (mem_normalizeAll hs _).mpr ⟨h, hh, rfl⟩, ?_⟩
    simp only [normalizeData, List.mem_map, hrange]
    refine ⟨_, hmem, ?_⟩
    rw [normalize_fin gmin gmin gmax hneq]
    simp
  · obtain ⟨h, hh, hmem⟩ := hhi
    refine ⟨_, (mem_normalizeAll hs _).mpr ⟨h, hh, rfl⟩, ?_⟩
    simp only [normalizeData, List.mem_map, hrange]
    refine ⟨_, hmem, ?_⟩
    rw [normalize_fin gmax gmin gmax hneq, div_self (ne_of_gt hpos)]

theorem mem_onePixelData (k : Nat) (v : F64) (hv : v ∈ onePixelData k) :
    v = F64.fin 0 ∨ v = F64.fin 1 := by
  simp only [onePixelData, List.mem_append, List.mem_cons, List.mem_replicate] at hv
  rcases hv with (h | h | h) | h | h
  · rcases List.mem_or_eq_of_mem_set h with h1 | h1
    · exact Or.inl (List.eq_of_mem_replicate h1)
    · exact Or.inr h1
  · exact Or.inr h
  · exact Or.inl h.2
  · exact Or.inr h
  · exact Or.inl h.2

theorem onePixelData_ownMinMax (name : List Char) (k : Nat) (label : Int) :
    OwnMinMax
      { FileName := name, Data := onePixelData k, Min := F64.fin 0, Max := F64.fin 1,
        Classification := label } := by
  refine ⟨0, 1, rfl, rfl, ?_, ?_, ?_⟩
  · exact List.mem_append_right _
      (List.mem_cons_of_mem _ (List.mem_replicate.mpr ⟨by norm_num, rfl⟩))
  · exact List.mem_append_right _ (List.mem_cons_self _ _)
  · intro v hv
    rcases mem_onePixelData k v hv with h | h
    · exact ⟨0, h, le_refl _, le_refl _, by norm_num⟩
    · exact ⟨1, h, by norm_num, by norm_num, le_refl _⟩

/-- Instance of `normalization_range`: the corpus of the histograms of a 1x1 red and a 1x1
black image. -/
theorem normalization_range_witness :
    ∃ gmin gmax : ℚ,
      globalRange [redPixelHistogram, blackPixelHistogram] = (F64.fin gmin, F64.fin gmax) ∧
      (∀ h ∈ [redPixelHistogram, blackPixelHistogram], ∀ v ∈ h.Data,
        ∃ q : ℚ, v = F64.fin q ∧ gmin ≤ q ∧ q ≤ gmax) ∧
      (∃ h ∈ [redPixelHistogram, blackPixelHistogram], F64.fin gmin ∈ h.Data) ∧
      (∃ h ∈ [redPixelHistogram, blackPixelHistogram], F64.fin gmax ∈ h.Data) ∧
      (∀ h ∈ normalizeAll [redPixelHistogram, blackPixelHistogram], ∀ d ∈ h.Data,
        ∃ q : ℚ, d = F64.fin q ∧ 0 ≤ q ∧ q ≤ 1) ∧
      (∃ h ∈ normalizeAll [redPixelHistogram, blackPixelHistogram], F64.fin 0 ∈ h.Data) ∧
      (∃ h ∈ normalizeAll [redPixelHistogram, blackPixelHistogram], F64.fin 1 ∈ h.Data) :=
  normalization_range [redPixelHistogram, blackPixelHistogram] (by simp)
    (by
      intro h hh
      simp only [List.mem_cons, List.mem_singleton, List.not_mem_nil, or_false] at hh
      rcases hh with rfl | rfl
      · exact onePixelData_ownMinMax _ _ _
      · exact onePixelData_ownMinMax _ _ _)
    (by decide)
    ⟨redPixelHistogram, by simp, 0, rfl, by norm_num⟩

/-- C4 (as stated, refuted): the histogram `crowdedHistogram` has `Min` and `Max` equal to
the smallest and largest of its non-negative bin counts and the computed global minimum
differs from the global maximum, yet the computed global minimum 999999999 is below every
bin count and no normalized value equals 0. -/
theorem normalization_range_counterexample :
    [crowdedHistogram] ≠ [] ∧ (∀ h ∈ [crowdedHistogram], OwnMinMax h) ∧
    (globalRange [crowdedHistogram]).1 ≠ (globalRange [crowdedHistogram]).2 ∧
    globalRange [crowdedHistogram] = (F64.fin 999999999, F64.fin 2000000000) ∧
    (∀ v ∈ crowdedHistogram.Data, v ≠ F64.fin 999999999) ∧
    ¬ (∃ h ∈ normalizeAll [crowdedHistogram], F64.fin 0 ∈ h.Data) := by
  have hrange : globalRange [crowdedHistogram] = (F64.fin 999999999, F64.fin 2000000000) := by
    decide
  have hmem : ∀ v ∈ crowdedHistogram.Data, v = F64.fin 2000000000 ∨ v = F64.fin 1000000000 := by
    intro v hv
    simp only [crowdedHistogram, crowdedChannel, List.mem_append, List.mem_cons,
      List.mem_replicate] at hv
    tauto
  refine ⟨by simp, ?_, ?_, hrange, ?_, ?_⟩
  · intro h hh
    simp only [List.mem_singleton] at hh
    subst hh
    refine ⟨1000000000, 2000000000, rfl, rfl, ?_, ?_, ?_⟩
    · exact List.mem_append_right _
        (List.mem_cons_of_mem _ (List.mem_replicate.mpr ⟨by norm_num, rfl⟩))
    · exact List.mem_append_right _ (List.mem_cons_self _ _)
    · intro v hv
      rcases hmem v hv with h | h
      · exact ⟨2000000000, h, by norm_num, by norm_num, le_refl _⟩
      · exact ⟨1000000000, h, by norm_num, le_refl _, by norm_num⟩
  · rw [hrange]
    decide
  · intro v hv
    rcases hmem v hv with h | h <;> rw [h] <;> decide
  · rintro ⟨h1, hh1, h0⟩
    obtain ⟨h, hh, heq⟩ := (mem_normalizeAll _ h1).mp hh1
    simp only [List.mem_singleton] at hh
    subst hh
    subst heq
    simp only [normalizeData, List.mem_map, hrange] at h0
    obtain ⟨v, hv, hvd⟩ := h0
    rcases hmem v hv with h | h
    · rw [h, normalize_fin _ _ _ (by norm_num), F64.fin.injEq] at hvd
      norm_num at hvd
    · rw [h, normalize_fin _ _ _ (by norm_num), F64.fin.injEq] at hvd
      norm_num at hvd

theorem div_zero_not_finite (v : F64) (m q : ℚ) :
    F64.div (F64.sub v (F64.fin m)) (F64.fin 0) ≠ F64.fin q := by
  cases v with
  | fin a =>
    simp only [F64.sub, F64.neg, F64.add, F64.div, if_true, F64.signed]
    split_ifs <;> simp
  | nan => simp [F64.sub, F64.neg, F64.add, F64.div]
  | posInf => simp [F64.sub, F64.neg, F64.add, F64.div, F64.signed]
  | negInf => simp [F64.sub, F64.neg, F64.add, F64.div, F64.signed]

theorem div_zero_value (q m : ℚ) :
    F64.div (F64.sub (F64.fin q) (F64.fin m)) (F64.fin 0)
      = if q = m then F64.nan else if m < q then F64.posInf else F64.negInf := by
  simp only [F64.sub, F64.neg, F64.add, F64.div, if_true, F64.signed, decide_eq_true_eq]
  have h1 : q + -m = 0 ↔ q = m := by
    constructor <;> intro h <;> linarith
  have h2 : 0 < q + -m ↔ m < q := by
    constructor <;> intro h <;> linarith
  simp only [h1, h2]

/-- Instance of `generateHistogram_shape_mass`: the 1x1 pure red image. -/
theorem generateHistogram_shape_mass_witness :
    Samples16 redPixelImage ∧
    ∃ values mn mx,
      generateHistogram (some redPixelImage) = some (Extraction.ok values mn mx) ∧
      values.length = 768 ∧
      sumF64 (values.take 256) = F64.ofNat (redPixelImage.MaxX * redPixelImage.MaxY) ∧
      sumF64 ((values.drop 256).take 256)
        = F64.ofNat (redPixelImage.MaxX * redPixelImage.MaxY) ∧
      sumF64 (values.drop 512) = F64.ofNat (redPixelImage.MaxX * redPixelImage.MaxY) ∧
      ∀ k, k < 256 →
        values[k]? = some (F64.ofNat
          ((pixels redPixelImage).countP (fun p => (redPixelImage.At p.1 p.2).1 / 256 = k))) ∧
        values[256 + k]? = some (F64.ofNat
          ((pixels redPixelImage).countP
            (fun p => (redPixelImage.At p.1 p.2).2.1 / 256 = k))) ∧
        values[512 + k]? = some (F64.ofNat
          ((pixels redPixelImage).countP
            (fun p => (redPixelImage.At p.1 p.2).2.2 / 256 = k))) :=
  ⟨fun _ _ => ⟨by simp [redPixelImage], by simp [redPixelImage], by simp [redPixelImage]⟩,
    generateHistogram_shape_mass redPixelImage
      (fun _ _ => ⟨by simp [redPixelImage], by simp [redPixelImage], by simp [redPixelImage]⟩)⟩

/-! ### The dataset text format -/

theorem digitVal_digitChar (m : Nat) (hm : m < 10) : digitVal (Nat.digitChar m) = some m := by
  interval_cases m <;> rfl

theorem digitChar_ne_space (m : Nat) (hm : m < 10) : Nat.digitChar m ≠ ' ' := by
  interval_cases m <;> decide

theorem parseDigits_toDigitsCore :
    ∀ (fuel n : Nat) (ds : List Char), n < fuel →
      parseDigits (Nat.toDigitsCore 10 fuel n ds) 0 = parseDigits ds n := by
  intro fuel
  induction fuel with
  | zero => intro n ds h; omega
  | succ fuel ih =>
    intro n ds hlt
    have hd := digitVal_digitChar (n % 10) (Nat.mod_lt _ (by norm_num))
    have hstep : parseDigits (Nat.digitChar (n % 10) :: ds) (n / 10) = parseDigits ds n := by
      simp only [parseDigits, hd]
      congr 1
      omega
    simp only [Nat.toDigitsCore]
    split_ifs with h0
    · have hn : n % 10 = n := by omega
      simp only [parseDigits, hd]
      congr 1
      omega
    · rw [ih (n / 10) _ (by omega), hstep]

theorem parseDigits_toDigits (n : Nat) : parseDigits (Nat.toDigits 10 n) 0 = some n := by
  rw [Nat.toDigits, parseDigits_toDigitsCore (n + 1) n [] (by omega)]
  rfl

theorem toDigitsCore_no_space :
    ∀ (fuel n : Nat) (ds : List Char), ' ' ∉ ds → ' ' ∉ Nat.toDigitsCore 10 fuel n ds := by
  intro fuel
  induction fuel with
  | zero => intro n ds h; simpa [Nat.toDigitsCore] using h
  | succ fuel ih =>
    intro n ds hds
    have hc := digitChar_ne_space (n % 10) (Nat.mod_lt _ (by norm_num))
    have hcons : ' ' ∉ Nat.digitChar (n % 10) :: ds := by
      intro hmem
      rcases List.mem_cons.mp hmem with h | h
      · exact hc h.symm
      · exact hds h
    simp only [Nat.toDigitsCore]
    split_ifs with h0
    · exact hcons
    · exact ih _ _ hcons

theorem toDigits_no_space (n : Nat) : ' ' ∉ Nat.toDigits 10 n :=
  toDigitsCore_no_space _ _ _ (by simp)

theorem toDigitsCore_head :
    ∀ (fuel n : Nat) (ds : List Char),
      (∃ m rest, m < 10 ∧ ds = Nat.digitChar m :: rest) →
      ∃ m rest, m < 10 ∧ Nat.toDigitsCore 10 fuel n ds = Nat.digitChar m :: rest := by
  intro fuel
  induction fuel with
  | zero =>
    intro n ds h
    simpa only [Nat.toDigitsCore] using h
  | succ fuel ih =>
    intro n ds _
    simp only [Nat.toDigitsCore]
    split_ifs with h0
    · exact ⟨n % 10, ds, Nat.mod_lt _ (by norm_num), rfl⟩
    · exact ih _ _ ⟨n % 10, ds, Nat.mod_lt _ (by norm_num), rfl⟩

theorem toDigits_head (n : Nat) :
    ∃ m rest, m < 10 ∧ Nat.toDigits 10 n = Nat.digitChar m :: rest := by
  simp only [Nat.toDigits, Nat.toDigitsCore]
  split_ifs with h0
  · exact ⟨n % 10, [], Nat.mod_lt _ (by norm_num), rfl⟩
  · exact toDigitsCore_head _ _ _ ⟨n % 10, [], Nat.mod_lt _ (by norm_num), rfl⟩

theorem Atoi_digits (n : Nat) (hn : n ≤ 9223372036854775807) :
    Atoi (Nat.toDigits 10 n) = (n : Int) := by
  obtain ⟨m, rest, hm, hd⟩ := toDigits_head n
  have hp := parseDigits_toDigits n
  rw [hd] at hp
  have hmag : parseMagnitude (Nat.digitChar m :: rest) = some n := by
    simp only [parseMagnitude, hp]
    rfl
  have h1 : Nat.digitChar m ≠ '-' := by interval_cases m <;> decide
  have h2 : Nat.digitChar m ≠ '+' := by interval_cases m <;> decide
  rw [hd]
  unfold Atoi
  split
  · rename_i heq
    exact absurd (List.cons.inj heq).1 h1
  · rename_i heq
    exact absurd (List.cons.inj heq).1 h2
  · simp only [hmag]
    rw [if_neg (by omega)]

theorem Atoi_Itoa (n : Int) (hlo : -9223372036854775808 ≤ n) (hhi : n ≤ 9223372036854775807) :
    Atoi (Itoa n) = n := by
  unfold Itoa
  split_ifs with hneg
  · obtain ⟨m, rest, hm, hd⟩ := toDigits_head n.natAbs
    have hp := parseDigits_toDigits n.natAbs
    have hmag : parseMagnitude (Nat.toDigits 10 n.natAbs) = some n.natAbs := by
      rw [hd] at hp ⊢
      simp only [parseMagnitude, hp]
      rfl
    simp only [Atoi, hmag]
    rw [if_neg (by omega)]
    omega
  · rw [Atoi_digits _ (by omega)]
    omega

theorem Itoa_no_space (n : Int) : ' ' ∉ Itoa n := by
  unfold Itoa
  split_ifs
  · intro hmem
    rcases List.mem_cons.mp hmem with h | h
    · exact absurd h (by decide)
    · exact toDigits_no_space _ h
  · exact toDigits_no_space _

theorem formatFloat10_no_space (v : F64) : ' ' ∉ formatFloat10 v := by
  cases v with
  | nan => decide
  | posInf => decide
  | negInf => decide
  | fin q =>
    simp only [formatFloat10, List.mem_append, List.mem_cons, List.mem_replicate, not_or]
    refine ⟨?_, toDigits_no_space _, by decide, ?_, toDigits_no_space _⟩
    · split_ifs <;> decide
    · rintro ⟨_, h⟩
      exact absurd h (by decide)

theorem splitSpaces_ne_nil (s : List Char) : splitSpaces s ≠ [] := by
  cases s with
  | nil => simp [splitSpaces]
  | cons c cs =>
    simp only [splitSpaces]
    split_ifs
    · simp
    · split <;> simp

theorem splitSpaces_token (tok rest : List Char) (htok : ' ' ∉ tok) :
    splitSpaces (tok ++ ' ' :: rest) = tok :: splitSpaces rest := by
  induction tok with
  | nil => simp [splitSpaces]
  | cons c cs ih =>
    have hc : c ≠ ' ' := fun h => htok (by simp [h])
    have hcs : ' ' ∉ cs := fun h => htok (by simp [h])
    have ih1 := ih hcs
    simp only [List.cons_append, splitSpaces, if_neg hc]
    change (match splitSpaces (cs ++ ' ' :: rest) with
      | [] => [[c]]
      | f :: fs => (c :: f) :: fs) = (c :: cs) :: splitSpaces rest
    rw [ih1]

theorem splitSpaces_join (toks : List (List Char)) (rest : List Char)
    (htoks : ∀ t ∈ toks, ' ' ∉ t) (hne : toks ≠ []) :
    splitSpaces (joinSpaces toks ++ ' ' :: rest) = toks ++ splitSpaces rest := by
  induction toks with
  | nil => exact absurd rfl hne
  | cons t ts ih =>
    cases ts with
    | nil =>
      simp only [joinSpaces, List.singleton_append]
      exact splitSpaces_token t rest (htoks t (by simp))
    | cons u us =>
      have hrec := ih (fun x hx => htoks x (by simp [hx])) (by simp)
      simp only [joinSpaces, List.append_assoc, List.cons_append]
      rw [splitSpaces_token t _ (htoks t (by simp)), hrec]
      rfl

theorem joinSpaces_splitSpaces (s : List Char) : joinSpaces (splitSpaces s) = s := by
  induction s with
  | nil => rfl
  | cons c cs ih =>
    simp only [splitSpaces]
    split_ifs with hc
    · subst hc
      cases hsp : splitSpaces cs with
      | nil => exact absurd hsp (splitSpaces_ne_nil cs)
      | cons f fs =>
        rw [hsp] at ih
        simp only [joinSpaces, List.nil_append, ih]
    · cases hsp : splitSpaces cs with
      | nil => exact absurd hsp (splitSpaces_ne_nil cs)
      | cons f fs =>
        rw [hsp] at ih
        cases fs with
        | nil =>
          simp only [joinSpaces] at ih ⊢
          rw [ih]
        | cons g gs =>
          simp only [joinSpaces] at ih ⊢
          rw [← ih]
          rfl

theorem splitSpaces_Stringify (hist : Histogram) (hdata : hist.Data ≠ []) :
    splitSpaces hist.Stringify
      = Itoa hist.Classification
        :: (hist.Data.map formatFloat10 ++ splitSpaces hist.FileName) := by
  rw [Histogram.Stringify, splitSpaces_token _ _ (Itoa_no_space _),
    splitSpaces_join _ _ (by
      intro t ht
      obtain ⟨v, _, hv⟩ := List.mem_map.mp ht
      rw [← hv]
      exact formatFloat10_no_space v) (by simpa using hdata)]

theorem loadLine_fields (parseFloat : List Char → F64) (line label : List Char)
    (data rest : List (List Char)) (hsplit : splitSpaces line = label :: (data ++ rest))
    (hlen : data.length = 768) :
    loadLine parseFloat line
      = some { Classification := Atoi label, Data := (data.take 767).map parseFloat,
               FileName := joinSpaces rest, Min := F64.fin 0, Max := F64.fin 0 } := by
  have hl : (label :: (data ++ rest)).length = 769 + rest.length := by
    simp only [List.length_cons, List.length_append, hlen]
    omega
  have h0 : (label :: (data ++ rest))[0]? = some label := List.getElem?_cons_zero
  have htake : ((label :: (data ++ rest)).take 768).drop 1 = data.take 767 := by
    rw [show (768 : Nat) = 767 + 1 from rfl, List.take_succ_cons, List.drop_succ_cons,
      List.drop_zero, List.take_append_of_le_length (by omega)]
  have hdrop : (label :: (data ++ rest)).drop 769 = rest := by
    rw [show (769 : Nat) = 768 + 1 from rfl, List.drop_succ_cons, List.drop_left' hlen]
  simp only [loadLine, hsplit, h0, htake, hdrop, hl]
  rw [if_pos (by omega), if_pos (by omega)]

/-- C1 (the code departs from the claim): for every histogram with exactly 768 data values
and a label that is a 64-bit integer, deserializing the line produced by `Stringify` with
the per-line parser of `loadHistograms` yields the same label and the same file name, but
only 767 data values: the first 767 values of `Data`, each formatted with ten decimals and
parsed back; the 768th value is dropped. -/
theorem loadLine_Stringify (parseFloat : List Char → F64) (hist : Histogram)
    (hlen : hist.Data.length = 768)
    (hlo : -9223372036854775808 ≤ hist.Classification)
    (hhi : hist.Classification ≤ 9223372036854775807) :
    ∃ loaded, loadLine parseFloat hist.Stringify = some loaded ∧
      loaded.Classification = hist.Classification ∧
      loaded.FileName = hist.FileName ∧
      loaded.Data = (hist.Data.take 767).map (fun v => parseFloat (formatFloat10 v)) ∧
      loaded.Data.length = 767 := by
  have hne : hist.Data ≠ [] := by
    intro h
    rw [h] at hlen
    exact absurd hlen (by decide)
  have hload := loadLine_fields parseFloat hist.Stringify (Itoa hist.Classification)
    (hist.Data.map formatFloat10) (splitSpaces hist.FileName)
    (splitSpaces_Stringify hist hne) (by rw [List.length_map, hlen])
  refine ⟨_, hload, Atoi_Itoa _ hlo hhi, joinSpaces_splitSpaces _, ?_, ?_⟩
  · simp only [← List.map_take, List.map_map]
    rfl
  · simp only [List.length_map, List.length_take, hlen]
    rfl

/-- Instance of `loadLine_Stringify`: the histogram of an image without pixels, with
`strconv.ParseFloat` replaced by a constant. -/
theorem loadLine_Stringify_witness :
    ∃ loaded, loadLine (fun _ => F64.fin 0) emptyImageHistogram.Stringify = some loaded ∧
      loaded.Classification = emptyImageHistogram.Classification ∧
      loaded.FileName = emptyImageHistogram.FileName ∧
      loaded.Data = (emptyImageHistogram.Data.take 767).map
        (fun v => (fun _ => F64.fin 0) (formatFloat10 v)) ∧
      loaded.Data.length = 767 :=
  loadLine_Stringify (fun _ => F64.fin 0) emptyImageHistogram
    (by simp only [emptyImageHistogram, List.length_replicate])
    (by decide) (by decide)

/-! ### The training epoch -/

theorem activation_eq_rule (s : F64) : activation s = ruleActivation s := by
  cases s with
  | fin q =>
    simp only [activation, ruleActivation, F64.lt, decide_eq_true_eq]
    by_cases h : q < 1 / 2
    · rw [if_pos h, if_neg (not_le.mpr h)]
    · rw [if_neg h, if_pos (not_lt.mp h)]
  | nan => rfl
  | posInf => rfl
  | negInf => rfl

theorem updateWeights_eq (ar : Arith) (learningRate : F64) (error : Int) (data : List F64) :
    ∀ (ws : List F64) (index : Nat), index + ws.length ≤ data.length →
      updateWeights ar learningRate error data ws index
        = some (List.zipWith
            (fun w d => ar.add w (ar.mul (ar.mul learningRate (F64.ofInt error)) d))
            ws (data.drop index)) := by
  intro ws
  induction ws with
  | nil => intro index _; simp [updateWeights]
  | cons w ws ih =>
    intro index hle
    have hidx : index < data.length := by simp at hle; omega
    have hdrop : data.drop index = data[index] :: data.drop (index + 1) :=
      List.drop_eq_getElem_cons hidx
    simp only [updateWeights, List.getElem?_eq_getElem hidx,
      ih (index + 1) (by simp at hle; omega), hdrop, List.zipWith_cons_cons]

theorem classify_eq (ar : Arith) (featureLength : Nat) (weights : List F64)
    (histogram : Histogram) (hfl : 0 < featureLength) (hw : weights.length = featureLength)
    (hd : histogram.Data.length = featureLength) :
    classify ar featureLength weights histogram = some (ruleOutput ar weights histogram) := by
  have h0 : featureLength ≠ 0 := by omega
  simp only [classify, NewVecDense, if_neg h0, hw, hd, if_true, ruleOutput, activation_eq_rule]

theorem ruleUpdate_length (ar : Arith) (learningRate : F64) (weights : List F64)
    (histogram : Histogram) (hlen : histogram.Data.length = weights.length) :
    (ruleUpdate ar learningRate weights histogram).length = weights.length := by
  simp only [ruleUpdate, List.length_zipWith, hlen, min_self]

theorem trainExample_eq (ar : Arith) (featureLength : Nat) (learningRate : F64)
    (weights : List F64) (errorSet : F64) (histogram : Histogram) (hfl : 0 < featureLength)
    (hw : weights.length = featureLength) (hd : histogram.Data.length = featureLength) :
    trainExample ar featureLength learningRate (weights, errorSet) histogram
      = some (ruleUpdate ar learningRate weights histogram,
          ar.add errorSet (F64.ofInt (ruleError ar weights histogram))) := by
  have hup := updateWeights_eq ar learningRate
    (histogram.Classification - ruleOutput ar weights histogram)
    histogram.Data weights 0 (by omega)
  simp only [List.drop_zero] at hup
  simp only [trainExample, classify_eq ar featureLength weights histogram hfl hw hd, hup,
    ruleUpdate, ruleError]

theorem trainLoop_eq (ar : Arith) (featureLength : Nat) (learningRate : F64)
    (hfl : 0 < featureLength) :
    ∀ (training : List Histogram) (weights : List F64) (errorSet : F64),
      weights.length = featureLength →
      (∀ h ∈ training, h.Data.length = featureLength) →
      training.foldlM (trainExample ar featureLength learningRate) (weights, errorSet)
        = some (ruleWeights ar learningRate weights training,
            (ruleErrors ar learningRate weights training).foldl
              (fun acc error => ar.add acc (F64.ofInt error)) errorSet) ∧
      (ruleWeights ar learningRate weights training).length = featureLength := by
  intro training
  induction training with
  | nil =>
    intro weights errorSet hw _
    simp [ruleWeights, ruleErrors, hw]
  | cons h rest ih =>
    intro weights errorSet hw hdata
    have hd : h.Data.length = featureLength := hdata h (by simp)
    have hlen := ruleUpdate_length ar learningRate weights h (by rw [hd, hw])
    obtain ⟨hfold, hlen1⟩ := ih (ruleUpdate ar learningRate weights h)
      (ar.add errorSet (F64.ofInt (ruleError ar weights h))) (by rw [hlen, hw])
      (fun x hx => hdata x (by simp [hx]))
    refine ⟨?_, by simpa [ruleWeights] using hlen1⟩
    rw [List.foldlM_cons, trainExample_eq ar featureLength learningRate weights _ h hfl hw hd]
    simp only [Option.bind_eq_bind, Option.some_bind]
    rw [hfold]
    simp only [ruleWeights, ruleErrors, List.foldl_cons]

theorem trainEpoch_eq (ar : Arith) (featureLength : Nat) (learningRate : F64)
    (weights : List F64) (training : List Histogram) (hfl : 0 < featureLength)
    (hw : weights.length = featureLength)
    (hdata : ∀ h ∈ training, h.Data.length = featureLength) :
    trainEpoch ar featureLength learningRate weights training
      = some (ruleWeights ar learningRate weights training,
          ar.div (ruleErrorSum ar (ruleErrors ar learningRate weights training))
            (F64.ofNat training.length)) ∧
    (ruleWeights ar learningRate weights training).length = featureLength := by
  obtain ⟨hfold, hlen⟩ :=
    trainLoop_eq ar featureLength learningRate hfl training weights (F64.fin 0) hw hdata
  refine ⟨?_, hlen⟩
  simp only [trainEpoch, hfold, ruleErrorSum]

theorem ruleActivation_values (s : F64) : ruleActivation s = 0 ∨ ruleActivation s = 1 := by
  cases s with
  | fin q =>
    simp only [ruleActivation]
    split_ifs
    · exact Or.inr rfl
    · exact Or.inl rfl
  | nan => exact Or.inr rfl
  | posInf => exact Or.inr rfl
  | negInf => exact Or.inl rfl

theorem ruleErrors_values (ar : Arith) (learningRate : F64) :
    ∀ (training : List Histogram) (weights : List F64),
      (∀ h ∈ training, h.Classification = 0 ∨ h.Classification = 1) →
      ∀ e ∈ ruleErrors ar learningRate weights training, e = -1 ∨ e = 0 ∨ e = 1 := by
  intro training
  induction training with
  | nil => intro _ _ e he; simp [ruleErrors] at he
  | cons h rest ih =>
    intro weights hlab e he
    simp only [ruleErrors, List.mem_cons] at he
    rcases he with he | he
    · have h1 := hlab h (by simp)
      have h2 := ruleActivation_values (ar.dot h.Data weights)
      simp only [ruleError, ruleOutput] at he
      omega
    · exact ih _ (fun x hx => hlab x (by simp [hx])) e he

theorem ruleErrors_length (ar : Arith) (learningRate : F64) :
    ∀ (training : List Histogram) (weights : List F64),
      (ruleErrors ar learningRate weights training).length = training.length := by
  intro training
  induction training with
  | nil => intro _; rfl
  | cons h rest ih =>
    intro weights
    simp only [ruleErrors, List.length_cons, ih]

theorem errorSum_exact (ar : Arith) (hlaws : FloatLaws ar) :
    ∀ (errors : List Int) (acc : Int), (∀ e ∈ errors, e = -1 ∨ e = 0 ∨ e = 1) →
      |acc| + errors.length ≤ 2 ^ 52 →
      errors.foldl (fun errorSet error => ar.add errorSet (F64.ofInt error)) (F64.ofInt acc)
        = F64.ofInt (acc + errors.sum) := by
  intro errors
  induction errors with
  | nil => intro acc _ _; simp
  | cons e rest ih =>
    intro acc hval hbound
    have he := hval e (by simp)
    have habs : |e| ≤ 1 := by
      rcases he with h | h | h <;> subst h <;> decide
    simp only [List.length_cons, Nat.cast_add, Nat.cast_one] at hbound
    have hlen : (0 : Int) ≤ (rest.length : Int) := Int.natCast_nonneg _
    have hacc : |acc| ≤ 2 ^ 52 := by omega
    have hnext : |acc + e| + (rest.length : Int) ≤ 2 ^ 52 := by
      have := abs_add acc e
      omega
    rw [List.foldl_cons, hlaws.add_int acc e hacc habs,
      ih (acc + e) (fun x hx => hval x (by simp [hx])) hnext, List.sum_cons, add_assoc]

theorem ruleUpdate_unchanged (ar : Arith) (hlaws : FloatLaws ar) (q : ℚ) (weights : List F64)
    (histogram : Histogram) (hlen : weights.length ≤ histogram.Data.length)
    (hfin : ∀ d ∈ histogram.Data, ∃ r : ℚ, d = F64.fin r)
    (herr : ruleError ar weights histogram = 0) :
    ruleUpdate ar (F64.fin q) weights histogram = weights := by
  simp only [ruleUpdate, herr]
  clear herr
  generalize histogram.Data = data at hlen hfin
  induction weights generalizing data with
  | nil => simp
  | cons w ws ih =>
    cases data with
    | nil => simp at hlen
    | cons d ds =>
      obtain ⟨r, hr⟩ := hfin d (by simp)
      subst hr
      have h0 : F64.ofInt 0 = F64.fin 0 := by simp [F64.ofInt]
      have hstep : ar.add w (ar.mul (ar.mul (F64.fin q) (F64.ofInt 0)) (F64.fin r)) = w := by
        rw [h0, hlaws.mul_zero, hlaws.zero_mul, hlaws.add_zero]
      simp only [List.zipWith_cons_cons, hstep]
      rw [ih ds (by simpa using hlen) (fun x hx => hfin x (by simp [hx]))]

theorem F64_add_zero (x : F64) : F64.add x (F64.fin 0) = x := by
  cases x <;> simp [F64.add]

theorem F64_zero_add (x : F64) : F64.add (F64.fin 0) x = x := by
  cases x <;> simp [F64.add]

theorem foldl_add_zeros (ps : List F64) (hps : ∀ p ∈ ps, p = F64.fin 0) :
    ps.foldl F64.add (F64.fin 0) = F64.fin 0 := by
  induction ps with
  | nil => rfl
  | cons p ps ih =>
    have hp : p = F64.fin 0 := hps p (by simp)
    subst hp
    rw [List.foldl_cons, F64_add_zero]
    exact ih (fun x hx => hps x (by simp [hx]))

theorem foldl_add_filter (ps : List F64) :
    ∀ acc : F64, ps.foldl F64.add acc
      = (ps.filter (fun p => decide (p ≠ F64.fin 0))).foldl F64.add acc := by
  induction ps with
  | nil => intro acc; rfl
  | cons p ps ih =>
    intro acc
    by_cases hp : p = F64.fin 0
    · subst hp
      simp only [List.foldl_cons, F64_add_zero, ne_eq, not_true_eq_false, decide_False,
        Bool.false_eq_true, not_false_eq_true, List.filter_cons_of_neg]
      exact ih acc
    · simp only [List.foldl_cons, ne_eq, hp, not_false_eq_true, decide_True,
        List.filter_cons_of_pos]
      exact ih _

theorem exactArith_laws : FloatLaws exactArith where
  add_zero := F64_add_zero
  zero_add := F64_zero_add
  mul_zero := fun q => by simp [exactArith, F64.mul]
  zero_mul := fun q => by simp [exactArith, F64.mul]
  mul_one := fun x => by cases x <;> simp [exactArith, F64.mul, F64.signed]
  one_mul := fun x => by cases x <;> simp [exactArith, F64.mul, F64.signed]
  add_int := fun a b _ _ => by simp [exactArith, F64.add, F64.ofInt]
  add_self := fun q _ _ => by
    simp only [exactArith, F64.add, F64.fin.injEq]
    ring
  div_two := by simp [exactArith, F64.div]
  dot_zero := fun u v h => foldl_add_zeros _ h
  dot_two := fun u v a b _ h => by
    show (List.zipWith F64.mul u v).foldl F64.add (F64.fin 0) = F64.add a b
    have hf : (List.zipWith F64.mul u v).filter (fun p => decide (p ≠ F64.fin 0)) = [a, b] := h
    rw [foldl_add_filter, hf]
    simp only [List.foldl_cons, List.foldl_nil, F64_zero_add]

theorem binary64_tenth : Binary64 tenth := by
  refine ⟨3602879701896397, -55, by norm_num, by norm_num, by norm_num, ?_⟩
  rw [tenth, zpow_neg]
  norm_num

theorem zipWith_replicate_left {α β γ : Type} (f : α → β → γ) (a : α) :
    ∀ (l : List β) (n : Nat), l.length ≤ n →
      List.zipWith f (List.replicate n a) l = l.map (f a) := by
  intro l
  induction l with
  | nil => intro n _; simp
  | cons b l ih =>
    intro n hn
    cases n with
    | zero => simp at hn
    | succ n =>
      rw [List.replicate_succ, List.zipWith_cons_cons, List.map_cons,
        ih n (by simpa using hn)]

theorem zipWith_congr_mem {α β γ : Type} (f g : α → β → γ) :
    ∀ (u : List α) (v : List β), (∀ a ∈ u, ∀ b ∈ v, f a b = g a b) →
      List.zipWith f u v = List.zipWith g u v := by
  intro u
  induction u with
  | nil => intro v _; simp
  | cons a u ih =>
    intro v h
    cases v with
    | nil => simp
    | cons b v =>
      rw [List.zipWith_cons_cons, List.zipWith_cons_cons, h a (by simp) b (by simp),
        ih v (fun x hx y hy => h x (by simp [hx]) y (by simp [hy]))]

theorem onePixelData_length (k : Nat) : (onePixelData k).length = 768 := by
  simp only [onePixelData, List.length_append, List.length_set, List.length_replicate,
    List.length_cons]

theorem redPixelHistogram_length : redPixelHistogram.Data.length = 768 :=
  onePixelData_length 255

theorem blackPixelHistogram_length : blackPixelHistogram.Data.length = 768 :=
  onePixelData_length 0

theorem redPixelWeights_length : redPixelWeights.length = 768 := by
  simp only [redPixelWeights, List.length_map, List.length_range]

theorem mem_redPixelWeights (w : F64) (hw : w ∈ redPixelWeights) :
    w = F64.fin tenth ∨ w = F64.fin 0 := by
  simp only [redPixelWeights, List.mem_map] at hw
  obtain ⟨i, _, hi⟩ := hw
  rw [← hi]
  split_ifs
  · exact Or.inl rfl
  · exact Or.inr rfl

set_option maxRecDepth 100000 in
theorem generateHistogram_redPixel :
    generateHistogram (some redPixelImage)
      = some (Extraction.ok redPixelHistogram.Data redPixelHistogram.Min
          redPixelHistogram.Max) := by
  decide!

set_option maxRecDepth 100000 in
theorem generateHistogram_blackPixel :
    generateHistogram (some blackPixelImage)
      = some (Extraction.ok blackPixelHistogram.Data blackPixelHistogram.Min
          blackPixelHistogram.Max) := by
  decide!

theorem golden_red_error (ar : Arith) (hlaws : FloatLaws ar) :
    ruleError ar (List.replicate 768 (F64.fin 0)) redPixelHistogram = 1 := by
  have hprod : ∀ p ∈ List.zipWith ar.mul (onePixelData 255) (List.replicate 768 (F64.fin 0)),
      p = F64.fin 0 := by
    intro p hp
    rw [List.zipWith_comm, zipWith_replicate_left _ _ _ _ (le_of_eq (onePixelData_length 255)),
      List.mem_map] at hp
    obtain ⟨d, hd, hdp⟩ := hp
    rw [← hdp]
    rcases mem_onePixelData 255 d hd with h | h <;> rw [h] <;> exact hlaws.mul_zero _
  have hdot := hlaws.dot_zero _ _ hprod
  simp only [ruleError, ruleOutput, redPixelHistogram, hdot, ruleActivation, Aurora]
  norm_num

set_option maxRecDepth 100000 in
theorem golden_red_map :
    (onePixelData 255).map (fun d => if d = F64.fin 1 then F64.fin tenth else F64.fin 0)
      = redPixelWeights := by
  decide!

theorem fin_zero_ne_one : F64.fin 0 ≠ F64.fin 1 := by
  intro h
  have h1 := F64.fin.inj h
  norm_num at h1

theorem golden_red_update (ar : Arith) (hlaws : FloatLaws ar) :
    ruleUpdate ar (F64.fin tenth) (List.replicate 768 (F64.fin 0)) redPixelHistogram
      = redPixelWeights := by
  have h1 : F64.ofInt 1 = F64.fin 1 := by simp [F64.ofInt]
  have hdata : redPixelHistogram.Data = onePixelData 255 := rfl
  simp only [ruleUpdate, golden_red_error ar hlaws, h1, hlaws.mul_one, hdata]
  rw [zipWith_replicate_left _ _ _ _ (le_of_eq (onePixelData_length 255)), ← golden_red_map]
  apply List.map_congr_left
  intro d hd
  rcases mem_onePixelData 255 d hd with h | h
  · rw [h, hlaws.mul_zero, hlaws.add_zero, if_neg fin_zero_ne_one]
  · rw [h, hlaws.mul_one, hlaws.zero_add, if_pos rfl]

set_option maxRecDepth 100000 in
theorem golden_black_products :
    (List.zipWith (fun d w => if d = F64.fin 1 then w else F64.fin 0)
        (onePixelData 0) redPixelWeights).filter (fun p => decide (p ≠ F64.fin 0))
      = [F64.fin tenth, F64.fin tenth] := by
  decide!

theorem golden_black_error (ar : Arith) (hlaws : FloatLaws ar) :
    ruleError ar redPixelWeights blackPixelHistogram = 0 := by
  have hbits : ∀ d ∈ onePixelData 0, d = F64.fin 0 ∨ d = F64.fin 1 := mem_onePixelData 0
  have hprod : List.zipWith ar.mul (onePixelData 0) redPixelWeights
      = List.zipWith (fun d w => if d = F64.fin 1 then w else F64.fin 0)
          (onePixelData 0) redPixelWeights := by
    apply zipWith_congr_mem
    intro d hd w hw
    have hwf : ∃ r : ℚ, w = F64.fin r := by
      rcases mem_redPixelWeights w hw with h | h
      · exact ⟨_, h⟩
      · exact ⟨_, h⟩
    obtain ⟨r, hr⟩ := hwf
    rcases hbits d hd with h | h
    · rw [h, hr, hlaws.zero_mul, if_neg fin_zero_ne_one]
    · rw [h, hlaws.one_mul, if_pos rfl]
  have hdot : ar.dot (onePixelData 0) redPixelWeights = F64.fin (2 * tenth) := by
    rw [hlaws.dot_two _ _ (F64.fin tenth) (F64.fin tenth) hbits
      (by rw [hprod]; exact golden_black_products)]
    exact hlaws.add_self tenth binary64_tenth (by rw [tenth]; norm_num [abs_le])
  simp only [ruleError, ruleOutput, blackPixelHistogram, hdot, ruleActivation, NoAurora]
  rw [tenth]
  norm_num

theorem golden_black_update (ar : Arith) (hlaws : FloatLaws ar) :
    ruleUpdate ar (F64.fin tenth) redPixelWeights blackPixelHistogram = redPixelWeights := by
  apply ruleUpdate_unchanged ar hlaws _ _ _ _ _ (golden_black_error ar hlaws)
  · rw [redPixelWeights_length]
    exact le_of_eq blackPixelHistogram_length.symm
  · intro d hd
    rcases mem_onePixelData 0 d hd with h | h
    · exact ⟨0, h⟩
    · exact ⟨1, h⟩

theorem golden_epoch (ar : Arith) (hlaws : FloatLaws ar) :
    trainEpoch ar 768 (F64.fin tenth) (List.replicate 768 (F64.fin 0))
        [redPixelHistogram, blackPixelHistogram]
      = some (redPixelWeights, F64.fin (1 / 2)) := by
  have h := (trainEpoch_eq ar 768 (F64.fin tenth) (List.replicate 768 (F64.fin 0))
    [redPixelHistogram, blackPixelHistogram] (by norm_num) (List.length_replicate _ _)
    (by
      intro h hh
      simp only [List.mem_cons, List.mem_singleton, List.not_mem_nil, or_false] at hh
      rcases hh with rfl | rfl
      · exact redPixelHistogram_length
      · exact blackPixelHistogram_length)).1
  have h1 : F64.ofInt 1 = F64.fin 1 := by simp [F64.ofInt]
  have h0 : F64.ofInt 0 = F64.fin 0 := by simp [F64.ofInt]
  have h2 : F64.ofNat 2 = F64.fin 2 := by simp [F64.ofNat]
  rw [h]
  simp only [ruleWeights, ruleErrors, golden_red_update ar hlaws, golden_red_error ar hlaws,
    golden_black_update ar hlaws, golden_black_error ar hlaws, ruleErrorSum, List.foldl_cons,
    List.foldl_nil, h0, h1, hlaws.zero_add, hlaws.add_zero, List.length_cons, List.length_nil,
    h2, hlaws.div_two]

/-- C6 (amended): for every float64 arithmetic, learning rate, weight vector and training
sequence of the feature length with labels in {0,1}, one training pass of `runPerceptron`
visits the examples in order and for each computes `output = activation(weights . data)`,
where `activation(s)` is 1 if `s >= 0.5` or `s` is NaN and 0 otherwise,
`error = label - output` (which is -1, 0 or 1), and replaces every `weights[i]` by
`weights[i] + learningRate * error * data[i]`; the recorded error is the float64 sum of the
signed errors, which is their exact sum, divided by the training-set size.  A correctly
classified example leaves the weights unchanged when the learning rate and the example's
data values are finite.  From all-zero weights with the learning rate 0.1, the histograms of
a 1x1 red image (label 1) and of a 1x1 black image (label 0) give the mean error 0.5 and
the weights 0.1 at the indices 255, 256 and 512 and 0 elsewhere. -/
theorem trainEpoch_online_rule (ar : Arith) (featureLength : Nat) (learningRate : F64)
    (weights : List F64) (training : List Histogram) (hfl : 0 < featureLength)
    (hw : weights.length = featureLength)
    (hdata : ∀ h ∈ training, h.Data.length = featureLength)
    (hlabels : ∀ h ∈ training, h.Classification = 0 ∨ h.Classification = 1) :
    (∀ q : ℚ, activation (F64.fin q) = if 1 / 2 ≤ q then 1 else 0) ∧
    activation F64.nan = 1 ∧ activation F64.posInf = 1 ∧ activation F64.negInf = 0 ∧
    trainEpoch ar featureLength learningRate weights training
      = some (ruleWeights ar learningRate weights training,
          ar.div (ruleErrorSum ar (ruleErrors ar learningRate weights training))
            (F64.ofNat training.length)) ∧
    (∀ e ∈ ruleErrors ar learningRate weights training, e = -1 ∨ e = 0 ∨ e = 1) ∧
    (FloatLaws ar → training.length ≤ 2 ^ 52 →
      ruleErrorSum ar (ruleErrors ar learningRate weights training)
        = F64.ofInt (ruleErrors ar learningRate weights training).sum) ∧
    (FloatLaws ar → ∀ (q : ℚ) (w : List F64) (h : Histogram), learningRate = F64.fin q →
      w.length = h.Data.length → (∀ d ∈ h.Data, ∃ r : ℚ, d = F64.fin r) →
      ruleError ar w h = 0 → ruleUpdate ar learningRate w h = w) ∧
    generateHistogram (some redPixelImage)
      = some (Extraction.ok redPixelHistogram.Data redPixelHistogram.Min
          redPixelHistogram.Max) ∧
    generateHistogram (some blackPixelImage)
      = some (Extraction.ok blackPixelHistogram.Data blackPixelHistogram.Min
          blackPixelHistogram.Max) ∧
    redPixelHistogram.Classification = 1 ∧ blackPixelHistogram.Classification = 0 ∧
    (FloatLaws ar →
      trainEpoch ar 768 (F64.fin tenth) (List.replicate 768 (F64.fin 0))
          [redPixelHistogram, blackPixelHistogram]
        = some ((List.range 768).map
            (fun i => if i = 255 ∨ i = 256 ∨ i = 512 then F64.fin tenth else F64.fin 0),
          F64.fin (1 / 2))) := by
  refine ⟨fun q => activation_eq_rule (F64.fin q), rfl, rfl, rfl,
    (trainEpoch_eq ar featureLength learningRate weights training hfl hw hdata).1,
    ruleErrors_values ar learningRate training weights hlabels, ?_, ?_,
    generateHistogram_redPixel, generateHistogram_blackPixel, rfl, rfl,
    fun hlaws => golden_epoch ar hlaws⟩
  · intro hlaws hsize
    have h0 : F64.fin 0 = F64.ofInt 0 := by simp [F64.ofInt]
    have hsum := errorSum_exact ar hlaws (ruleErrors ar learningRate weights training) 0
      (ruleErrors_values ar learningRate training weights hlabels)
      (by
        rw [ruleErrors_length, abs_zero, zero_add]
        exact_mod_cast hsize)
    rw [ruleErrorSum, h0, hsum, zero_add]
  · intro hlaws q w h hq hlen hfin herr
    rw [hq]
    exact ruleUpdate_unchanged ar hlaws q w h (le_of_eq hlen) hfin herr

/-- Instance of `trainEpoch_online_rule`: exact arithmetic, all-zero weights of length 768,
the learning rate 0.1 and the histograms of the 1x1 red and black images. -/
theorem trainEpoch_online_rule_witness :
    trainEpoch exactArith 768 (F64.fin tenth) (List.replicate 768 (F64.fin 0))
        [redPixelHistogram, blackPixelHistogram]
      = some ((List.range 768).map
          (fun i => if i = 255 ∨ i = 256 ∨ i = 512 then F64.fin tenth else F64.fin 0),
        F64.fin (1 / 2)) ∧
    (∀ e ∈ ruleErrors exactArith (F64.fin tenth) (List.replicate 768 (F64.fin 0))
      [redPixelHistogram, blackPixelHistogram], e = -1 ∨ e = 0 ∨ e = 1) :=
  have h := trainEpoch_online_rule exactArith 768 (F64.fin tenth)
    (List.replicate 768 (F64.fin 0)) [redPixelHistogram, blackPixelHistogram] (by norm_num)
    (List.length_replicate _ _)
    (by
      intro h hh
      simp only [List.mem_cons, List.mem_singleton, List.not_mem_nil, or_false] at hh
      rcases hh with rfl | rfl
      · exact redPixelHistogram_length
      · exact blackPixelHistogram_length)
    (by
      intro h hh
      simp only [List.mem_cons, List.mem_singleton, List.not_mem_nil, or_false] at hh
      rcases hh with rfl | rfl <;> decide)
  ⟨h.2.2.2.2.2.2.2.2.2.2.2.2 exactArith_laws, h.2.2.2.2.2.1⟩

/-- C6 (as stated, refuted): the claim gives `activation(s) = 1 if s >= 0.5 and 0
otherwise`, which is 0 at NaN, where `activation` returns 1; and with the learning rate
`+Inf`, all-zero weights and the histogram of the 1x1 black image (label 0), the example is
classified correctly, its error is 0, and the training step nevertheless replaces every
weight by `0 + (+Inf * 0) * data[i]`, which is NaN (each operation involved has the same
result in float64). -/
theorem trainEpoch_online_rule_counterexample :
    statedActivation F64.nan = 0 ∧ activation F64.nan = 1 ∧
    (blackPixelHistogram.Classification = 0 ∨ blackPixelHistogram.Classification = 1) ∧
    ruleError exactArith (List.replicate 768 (F64.fin 0)) blackPixelHistogram = 0 ∧
    trainExample exactArith 768 F64.posInf (List.replicate 768 (F64.fin 0), F64.fin 0)
        blackPixelHistogram
      = some (List.replicate 768 F64.nan, F64.fin 0) ∧
    List.replicate 768 F64.nan ≠ List.replicate 768 (F64.fin 0) := by
  have hdata : blackPixelHistogram.Data = onePixelData 0 := rfl
  have hdot : exactArith.dot (onePixelData 0) (List.replicate 768 (F64.fin 0))
      = F64.fin 0 := by
    apply exactArith_laws.dot_zero
    intro p hp
    rw [List.zipWith_comm, zipWith_replicate_left _ _ _ _ (le_of_eq (onePixelData_length 0)),
      List.mem_map] at hp
    obtain ⟨d, hd, hdp⟩ := hp
    rw [← hdp]
    rcases mem_onePixelData 0 d hd with h | h <;> rw [h] <;> exact exactArith_laws.mul_zero _
  have herr : ruleError exactArith (List.replicate 768 (F64.fin 0)) blackPixelHistogram
      = 0 := by
    simp only [ruleError, ruleOutput, hdata, hdot, ruleActivation, blackPixelHistogram,
      NoAurora]
    norm_num
  have hnan : ∀ d : F64, exactArith.add (F64.fin 0)
      (exactArith.mul (exactArith.mul F64.posInf (F64.ofInt 0)) d) = F64.nan := by
    intro d
    cases d <;> simp [exactArith, F64.add, F64.mul, F64.ofInt]
  have hz : exactArith.add (F64.fin 0) (F64.ofInt 0) = F64.fin 0 := by
    simp [exactArith, F64.add, F64.ofInt]
  refine ⟨by decide, rfl, Or.inl rfl, herr, ?_, ?_⟩
  · rw [trainExample_eq exactArith 768 F64.posInf _ _ blackPixelHistogram (by norm_num)
      (List.length_replicate _ _) blackPixelHistogram_length]
    simp only [ruleUpdate, herr, hdata]
    rw [zipWith_replicate_left _ _ _ _ (le_of_eq (onePixelData_length 0)), hz]
    have hmap : (onePixelData 0).map (fun d => exactArith.add (F64.fin 0)
        (exactArith.mul (exactArith.mul F64.posInf (F64.ofInt 0)) d))
        = (onePixelData 0).map (fun _ => F64.nan) :=
      List.map_congr_left (fun d _ => hnan d)
    rw [hmap, List.map_const', onePixelData_length]
  · intro h
    have hm : F64.nan ∈ List.replicate 768 (F64.fin 0) := by
      rw [← h]
      exact List.mem_replicate.mpr ⟨by norm_num, rfl⟩
    exact absurd (List.eq_of_mem_replicate hm) (by decide)

/-! ### Final accuracy -/

theorem countSuccesses_eq (ar : Arith) (featureLength : Nat) (weights : List F64)
    (hfl : 0 < featureLength) (hw : weights.length = featureLength) :
    ∀ (validation : List Histogram) (start : Nat),
      (∀ h ∈ validation, h.Data.length = featureLength) →
      validation.foldlM (scoreExample ar featureLength weights) start
        = some (start + ruleMatches ar weights validation) := by
  intro validation
  induction validation with
  | nil => intro start _; simp [ruleMatches]
  | cons h rest ih =>
    intro start hdata
    have hd : h.Data.length = featureLength := hdata h (by simp)
    rw [List.foldlM_cons]
    simp only [scoreExample, classify_eq ar featureLength weights h hfl hw hd,
      Option.bind_eq_bind, Option.some_bind]
    rw [ih _ (fun x hx => hdata x (by simp [hx]))]
    simp only [ruleMatches, List.countP_cons, decide_eq_true_eq]
    split_ifs
    · congr 1
      omega
    · congr 1

theorem formatWeights_flatMap (weights : List F64) :
    ∀ acc : List Char,
      weights.foldl
          (fun resultString weight => resultString ++ (formatFloat10 weight ++ [' '])) acc
        = acc ++ weights.flatMap (fun weight => formatFloat10 weight ++ [' ']) := by
  induction weights with
  | nil => intro acc; simp
  | cons w ws ih =>
    intro acc
    rw [List.foldl_cons, ih, List.flatMap_cons, List.append_assoc]

theorem splitSpaces_weights (weights : List F64) :
    splitSpaces (weights.flatMap (fun weight => formatFloat10 weight ++ [' ']))
      = weights.map formatFloat10 ++ [[]] := by
  induction weights with
  | nil => rfl
  | cons w ws ih =>
    rw [List.flatMap_cons, List.append_assoc, List.singleton_append,
      splitSpaces_token _ _ (formatFloat10_no_space w), ih, List.map_cons, List.cons_append]

theorem splitSpaces_formatWeights (weights : List F64) :
    splitSpaces (formatWeights weights) = weights.map formatFloat10 ++ [[]] := by
  rw [formatWeights, formatWeights_flatMap, List.nil_append, splitSpaces_weights]

theorem epochLoop_spec (ar : Arith) (featureLength : Nat) (learningRate : F64)
    (training validation : List Histogram) (hfl : 0 < featureLength)
    (htrain : ∀ h ∈ training, h.Data.length = featureLength)
    (hval : ∀ h ∈ validation, h.Data.length = featureLength) :
    ∀ (remaining : Nat) (state : TrainState), state.weights.length = featureLength →
      ∃ final, epochLoop ar featureLength learningRate training validation remaining state
          = some final ∧
        final.weights = ruleEpochs ar learningRate training remaining state.weights ∧
        final.weights.length = featureLength ∧
        final.accuracy = state.accuracy ++ (List.range remaining).map (fun k =>
          ruleAccuracy ar (ruleEpochs ar learningRate training (k + 1) state.weights)
            validation) ∧
        final.errors.length = state.errors.length + remaining := by
  intro remaining
  induction remaining with
  | zero =>
    intro state hw
    exact ⟨state, rfl, rfl, hw, by simp, rfl⟩
  | succ k ih =>
    intro state hw
    obtain ⟨hepoch, hlen⟩ :=
      trainEpoch_eq ar featureLength learningRate state.weights training hfl hw htrain
    have hs1 := countSuccesses_eq ar featureLength _ hfl hlen validation 0 hval
    rw [Nat.zero_add] at hs1
    obtain ⟨final, hfinal, hfw, hfl1, hfa, hfe⟩ := ih
      { weights := ruleWeights ar learningRate state.weights training,
        errors := state.errors ++ [ar.div
          (ruleErrorSum ar (ruleErrors ar learningRate state.weights training))
          (F64.ofNat training.length)],
        accuracy := state.accuracy ++ [accuracyPercent ar
          (ruleMatches ar (ruleWeights ar learningRate state.weights training) validation)
          validation.length] } hlen
    refine ⟨final, ?_, ?_, hfl1, ?_, ?_⟩
    · simp only [epochLoop, hepoch, countSuccesses, hs1, hfinal]
    · rw [hfw]
      rfl
    · rw [hfa, List.range_succ_eq_map, List.map_cons, List.map_map, List.append_assoc]
      rfl
    · rw [hfe]
      simp only [List.length_append, List.length_singleton]
      omega

/-- C7: for every float64 arithmetic, training set, non-empty validation set, learning
rate, initial weights of the feature length and epoch count `epochs >= 1`, `runPerceptron`
completes the epoch loop with the weights of `epochs` training passes; the value recorded
for epoch `k` is `100 * matches / validation size` for the weights after pass `k`, where
`matches` counts the validation examples whose label equals the activation output; the
accuracy recomputed after the loop is that value for the final weights and equals
`accuracy[epochs-1]`; the divisor is not zero; and the output string holds exactly the final
weights, each formatted with ten decimals and followed by a space. -/
theorem final_accuracy_eq_last_epoch (ar : Arith) (featureLength : Nat) (weights : List F64)
    (learningRate : F64) (epochs : Nat) (training validation : List Histogram)
    (hfl : 0 < featureLength) (hw : weights.length = featureLength)
    (htrain : ∀ h ∈ training, h.Data.length = featureLength)
    (hval : ∀ h ∈ validation, h.Data.length = featureLength)
    (hne : validation ≠ []) (hep : 1 ≤ epochs) :
    ∃ report, trainAndReport ar featureLength weights learningRate epochs training validation
        = some report ∧
      report.weights = ruleEpochs ar learningRate training epochs weights ∧
      report.accuracy = (List.range epochs).map (fun k =>
        ruleAccuracy ar (ruleEpochs ar learningRate training (k + 1) weights) validation) ∧
      report.errors.length = epochs ∧
      report.validationSuccesses = ruleMatches ar report.weights validation ∧
      report.finalAccuracy
        = ar.mul (F64.fin 100)
            (ar.div (F64.ofNat (validation.countP (fun e =>
                decide (e.Classification = ruleActivation (ar.dot e.Data report.weights)))))
              (F64.ofNat validation.length)) ∧
      F64.ofNat validation.length ≠ F64.fin 0 ∧
      report.accuracy[epochs - 1]? = some report.finalAccuracy ∧
      splitSpaces report.resultString = report.weights.map formatFloat10 ++ [[]] := by
  obtain ⟨final, hfinal, hfw, hflen, hfa, hfe⟩ :=
    epochLoop_spec ar featureLength learningRate training validation hfl htrain hval epochs
      { weights := weights, errors := [], accuracy := [] } hw
  have hs := countSuccesses_eq ar featureLength final.weights hfl hflen validation 0 hval
  rw [Nat.zero_add] at hs
  have hrun : trainAndReport ar featureLength weights learningRate epochs training validation
      = some { weights := final.weights, errors := final.errors, accuracy := final.accuracy,
               validationSuccesses := ruleMatches ar final.weights validation,
               finalAccuracy := accuracyPercent ar (ruleMatches ar final.weights validation)
                 validation.length,
               resultString := formatWeights final.weights } := by
    simp only [trainAndReport, hfinal, countSuccesses, hs]
  have hvl : validation.length ≠ 0 := fun h => hne (List.length_eq_zero.mp h)
  have hacc : final.accuracy = (List.range epochs).map (fun k =>
      ruleAccuracy ar (ruleEpochs ar learningRate training (k + 1) weights) validation) := by
    simpa using hfa
  refine ⟨_, hrun, hfw, hacc, by simpa using hfe, rfl, rfl, ?_, ?_,
    splitSpaces_formatWeights final.weights⟩
  · simp only [F64.ofNat, ne_eq, F64.fin.injEq, Nat.cast_eq_zero]
    exact hvl
  · have hlt : epochs - 1 < epochs := by omega
    have hk : epochs - 1 + 1 = epochs := by omega
    show final.accuracy[epochs - 1]?
      = some (accuracyPercent ar (ruleMatches ar final.weights validation) validation.length)
    rw [hacc, List.getElem?_map, List.getElem?_range hlt, Option.map_some', hk, hfw]
    rfl

/-- Instance of `final_accuracy_eq_last_epoch`: exact arithmetic, one epoch from all-zero
weights with the red-pixel histogram as training set and the black-pixel histogram as
validation set. -/
theorem final_accuracy_eq_last_epoch_witness :
    ∃ report, trainAndReport exactArith 768 (List.replicate 768 (F64.fin 0)) (F64.fin tenth) 1
        [redPixelHistogram] [blackPixelHistogram] = some report ∧
      report.weights = ruleEpochs exactArith (F64.fin tenth) [redPixelHistogram] 1
        (List.replicate 768 (F64.fin 0)) ∧
      report.accuracy = (List.range 1).map (fun k =>
        ruleAccuracy exactArith (ruleEpochs exactArith (F64.fin tenth) [redPixelHistogram]
          (k + 1) (List.replicate 768 (F64.fin 0))) [blackPixelHistogram]) ∧
      report.errors.length = 1 ∧
      report.validationSuccesses = ruleMatches exactArith report.weights [blackPixelHistogram] ∧
      report.finalAccuracy
        = exactArith.mul (F64.fin 100)
            (exactArith.div (F64.ofNat ([blackPixelHistogram].countP (fun e =>
                decide (e.Classification
                  = ruleActivation (exactArith.dot e.Data report.weights)))))
              (F64.ofNat [blackPixelHistogram].length)) ∧
      F64.ofNat [blackPixelHistogram].length ≠ F64.fin 0 ∧
      report.accuracy[1 - 1]? = some report.finalAccuracy ∧
      splitSpaces report.resultString = report.weights.map formatFloat10 ++ [[]] :=
  final_accuracy_eq_last_epoch exactArith 768 (List.replicate 768 (F64.fin 0))
    (F64.fin tenth) 1 [redPixelHistogram] [blackPixelHistogram] (by norm_num)
    (List.length_replicate _ _)
    (by
      intro h hh
      simp only [List.mem_singleton] at hh
      subst hh
      exact redPixelHistogram_length)
    (by
      intro h hh
      simp only [List.mem_singleton] at hh
      subst hh
      exact blackPixelHistogram_length)
    (by simp) (le_refl 1)

/-! ### Command-line arguments -/

theorem loadLine_Stringify_some (parseFloat : List Char → F64) (hist : Histogram)
    (hlen : hist.Data.length = 768) :
    ∃ loaded, loadLine parseFloat hist.Stringify = some loaded := by
  have hne : hist.Data ≠ [] := by
    intro h
    rw [h] at hlen
    exact absurd hlen (by decide)
  exact ⟨_, loadLine_fields parseFloat hist.Stringify (Itoa hist.Classification)
    (hist.Data.map formatFloat10) (splitSpaces hist.FileName)
    (splitSpaces_Stringify hist hne) (by rw [List.length_map, hlen])⟩

theorem loadHistograms_Stringify (parseFloat : List Char → F64) :
    ∀ (hists : List Histogram), (∀ h ∈ hists, h.Data.length = 768) →
      ∃ loaded, loadHistograms parseFloat (hists.map Histogram.Stringify) = some loaded ∧
        loaded.length = hists.length := by
  intro hists
  induction hists with
  | nil => intro _; exact ⟨[], rfl, rfl⟩
  | cons h rest ih =>
    intro hdata
    obtain ⟨l, hl⟩ := loadLine_Stringify_some parseFloat h (hdata h (by simp))
    obtain ⟨ls, hls, hlen⟩ := ih (fun x hx => hdata x (by simp [hx]))
    refine ⟨l :: ls, ?_, by simp [hlen]⟩
    simp only [loadHistograms] at hls ⊢
    simp only [List.map_cons, List.mapM_cons, hl, hls, Option.bind_eq_bind, Option.some_bind,
      Option.pure_def]

/-- C9 (the code departs from the claim): for the command `run` with only the dataset file,
or only the dataset file and the epoch count, and a dataset file of at least two records
written by `Stringify`, the program prints no usage message: it loads, shuffles and splits
the dataset and then panics reading the absent `os.Args[4]`. -/
theorem run_missing_arguments (env : Env) (args : List (List Char)) (file : List Char)
    (hists : List Histogram)
    (hcmd : args[1]? = some ['r', 'u', 'n']) (hfile : args[2]? = some file)
    (hlen : args.length = 3 ∨ args.length = 4)
    (hread : env.readLines file = some (hists.map Histogram.Stringify))
    (hdata : ∀ h ∈ hists, h.Data.length = 768)
    (hperm : (env.perm hists.length).Perm (List.range hists.length))
    (hN : 2 ≤ hists.length) :
    main env args
      = stopped [Message.loaded file hists.length,
          Message.split hists.length (4 * hists.length / 5)
            (hists.length - 4 * hists.length / 5)]
          true (Status.panic (PanicSite.osArgs 4)) := by
  obtain ⟨loaded, hload, hll⟩ := loadHistograms_Stringify env.parseFloat hists hdata
  obtain ⟨out, hout, hol, _⟩ := shuffleHistograms_spec loaded (env.perm loaded.length)
    (by rw [hll]; exact hperm)
  have h2 : ¬ args.length < 2 := by omega
  have h3 : ¬ args.length < 3 := by omega
  have h4 : args[4]? = none := List.getElem?_eq_none (by omega)
  have hol2 : out.length = hists.length := by rw [hol, hll]
  have htl : (out.take (4 * out.length / 5)).length = 4 * hists.length / 5 := by
    simp only [List.length_take, hol2]
    omega
  have hvl : (out.drop (4 * out.length / 5)).length
      = hists.length - 4 * hists.length / 5 := by
    simp only [List.length_drop, hol2]
  obtain ⟨n, hn⟩ : ∃ n, featureLength (out.take (4 * out.length / 5)) = some n := by
    cases hsome : featureLength (out.take (4 * out.length / 5)) with
    | some n => exact ⟨n, rfl⟩
    | none =>
      have := (featureLength_isSome_iff (out.take (4 * out.length / 5))).mpr (by
        intro h
        rw [h] at htl
        simp at htl
        omega)
      rw [hsome] at this
      exact absurd this (by simp)
  have hrun : ¬ (['r', 'u', 'n'] = ['p', 'r', 'e', 'p', 'a', 'r', 'e']) := by decide
  have hout1 : shuffleHistograms loaded (env.perm hists.length) = some out := by
    rw [← hll]
    exact hout
  rw [hol2] at htl hvl hn
  simp only [main, h2, if_false, hcmd, hrun, runPerceptron, h3, hfile, hread, hload, hll,
    hout1, trainingData_eq, validationData_eq, hol2, hn, h4, htl, hvl, if_true]
  rfl

/-- Instance of `run_missing_arguments`: `os.Args = [a, run, d]` and a dataset file holding
the records of the red-pixel and black-pixel histograms. -/
theorem run_missing_arguments_witness :
    main { readLines := fun _ => some ([redPixelHistogram, blackPixelHistogram].map
             Histogram.Stringify),
           readDir := fun _ => none, parseFloat := fun _ => F64.fin 0,
           perm := fun n => List.range n, rand := fun _ => F64.fin 0,
           arith := exactArith }
        [['a'], ['r', 'u', 'n'], ['d']]
      = stopped [Message.loaded ['d'] [redPixelHistogram, blackPixelHistogram].length,
          Message.split [redPixelHistogram, blackPixelHistogram].length
            (4 * [redPixelHistogram, blackPixelHistogram].length / 5)
            ([redPixelHistogram, blackPixelHistogram].length
              - 4 * [redPixelHistogram, blackPixelHistogram].length / 5)]
          true (Status.panic (PanicSite.osArgs 4)) :=
  run_missing_arguments _ [['a'], ['r', 'u', 'n'], ['d']] ['d']
    [redPixelHistogram, blackPixelHistogram] rfl rfl (Or.inl rfl) rfl
    (by
      intro h hh
      simp only [List.mem_cons, List.mem_singleton, List.not_mem_nil, or_false] at hh
      rcases hh with rfl | rfl
      · exact redPixelHistogram_length
      · exact blackPixelHistogram_length)
    (List.Perm.refl _) (by simp)

theorem main_guards (env : Env) (args : List (List Char)) :
    (args.length < 2 → main env args
      = stopped [Message.specifyCommand] false (Status.exit 1)) ∧
    (args.length = 2 → args[1]? = some ['r', 'u', 'n'] → main env args
      = stopped [Message.enterHistogramFile] false (Status.exit 1)) := by
  constructor
  · intro h
    simp only [main, h, if_true]
  · intro h hcmd
    have h2 : ¬ args.length < 2 := by omega
    have h3 : args.length < 3 := by omega
    have hrun : ¬ (['r', 'u', 'n'] = ['p', 'r', 'e', 'p', 'a', 'r', 'e']) := by decide
    simp only [main, h2, if_false, hcmd, hrun, runPerceptron, h3, if_true]

/-! ### The degenerate range in the prepare stage -/

theorem foldl_append_flatMap {α : Type} (f : α → List Char) (l : List α) :
    ∀ acc : List Char, l.foldl (fun s x => s ++ f x) acc = acc ++ l.flatMap f := by
  induction l with
  | nil => intro acc; simp
  | cons x l ih =>
    intro acc
    rw [List.foldl_cons, ih, List.flatMap_cons, List.append_assoc]

theorem serializeHistograms_eq (normalized : List Histogram) :
    serializeHistograms normalized = normalized.flatMap (fun h => h.Stringify ++ ['\n']) := by
  rw [serializeHistograms, foldl_append_flatMap, List.nil_append]

theorem normalizeAll_degenerate (hs : List Histogram) (m : ℚ)
    (hdeg : globalRange hs = (F64.fin m, F64.fin m)) :
    normalizeAll hs = hs.map (fun h =>
      { h with Data := h.Data.map (fun v => F64.div (F64.sub v (F64.fin m)) (F64.fin 0)) }) := by
  have hden : F64.sub (F64.fin m) (F64.fin m) = F64.fin 0 := by
    simp [F64.sub, F64.neg, F64.add]
  simp only [normalizeAll, normalizeData, hdeg, hden]

theorem format_div_zero (v : F64) (m : ℚ) :
    formatFloat10 (F64.div (F64.sub v (F64.fin m)) (F64.fin 0)) = ['N', 'a', 'N'] ∨
    formatFloat10 (F64.div (F64.sub v (F64.fin m)) (F64.fin 0)) = ['+', 'I', 'n', 'f'] ∨
    formatFloat10 (F64.div (F64.sub v (F64.fin m)) (F64.fin 0)) = ['-', 'I', 'n', 'f'] := by
  cases v with
  | fin a =>
    rw [div_zero_value]
    split_ifs
    · exact Or.inl rfl
    · exact Or.inr (Or.inl rfl)
    · exact Or.inr (Or.inr rfl)
  | nan => exact Or.inl rfl
  | posInf =>
    right
    left
    simp [F64.sub, F64.neg, F64.add, F64.div, F64.signed, formatFloat10]
  | negInf =>
    right
    right
    simp [F64.sub, F64.neg, F64.add, F64.div, F64.signed, formatFloat10]

theorem generateHistogram_sorted (img : Image) (h16 : Samples16 img) (lo hi : F64)
    (hlo : (sortFloat64s ((tally (redBin img) (pixels img) ++ tally (greenBin img) (pixels img)
      ++ tally (blueBin img) (pixels img)).map F64.ofNat))[0]? = some lo)
    (hhi : (sortFloat64s ((tally (redBin img) (pixels img) ++ tally (greenBin img) (pixels img)
      ++ tally (blueBin img) (pixels img)).map F64.ofNat))[(sortFloat64s
        ((tally (redBin img) (pixels img) ++ tally (greenBin img) (pixels img)
          ++ tally (blueBin img) (pixels img)).map F64.ofNat)).length - 1]? = some hi) :
    generateHistogram (some img)
      = some (Extraction.ok
          ((tally (redBin img) (pixels img) ++ tally (greenBin img) (pixels img)
            ++ tally (blueBin img) (pixels img)).map F64.ofNat) lo hi) := by
  simp only [List.map_append] at hlo hhi
  simp only [generateHistogram, countImage_eq img h16, binsAfter, hlo, hhi, List.map_append]

theorem samples16_gradient : Samples16 gradientImage := by
  intro i j
  simp only [gradientImage]
  split_ifs with h
  · have hb : 257 * (16 * i + j) < 65536 := by omega
    exact ⟨hb, hb, hb⟩
  · exact ⟨by norm_num, by norm_num, by norm_num⟩

theorem bins_gradient :
    greenBin gradientImage = redBin gradientImage ∧
    blueBin gradientImage = redBin gradientImage := by
  constructor <;> funext p <;> simp only [greenBin, blueBin, redBin, gradientImage] <;>
    split_ifs <;> rfl

set_option maxRecDepth 100000 in
theorem tally_gradient :
    tally (redBin gradientImage) (pixels gradientImage) = List.replicate 256 1 := by
  decide!

set_option maxRecDepth 100000 in
theorem sorted_gradient :
    ((List.replicate 256 1 ++ List.replicate 256 1 ++ List.replicate 256 1).map F64.ofNat
      = List.replicate 768 (F64.fin 1)) ∧
    (sortFloat64s (List.replicate 768 (F64.fin 1)))[0]? = some (F64.fin 1) ∧
    (sortFloat64s (List.replicate 768 (F64.fin 1)))[(sortFloat64s
      (List.replicate 768 (F64.fin 1))).length - 1]? = some (F64.fin 1) := by
  decide!

theorem generateHistogram_gradient :
    generateHistogram (some gradientImage)
      = some (Extraction.ok (List.replicate 768 (F64.fin 1)) (F64.fin 1) (F64.fin 1)) := by
  have h := generateHistogram_sorted gradientImage samples16_gradient (F64.fin 1) (F64.fin 1)
  rw [bins_gradient.1, bins_gradient.2, tally_gradient, sorted_gradient.1] at h
  exact h sorted_gradient.2.1 sorted_gradient.2.2

theorem collectHistograms_single (env : Env) (name : List Char) (img : Image)
    (values : List F64) (lo hi : F64)
    (hread : env.readDir auroraDirectory.DirectoryName = some [(name, some img)])
    (hread0 : env.readDir noauroraDirectory.DirectoryName = some [])
    (hgen : generateHistogram (some img) = some (Extraction.ok values lo hi)) :
    collectHistograms env directories []
      = Except.ok [{ FileName := name, Data := values, Min := lo, Max := hi,
                     Classification := Aurora }] := by
  have himp : importDirectory auroraDirectory [(name, Extraction.ok values lo hi)]
      = some [{ FileName := name, Data := values, Min := lo, Max := hi,
                Classification := Aurora }] := rfl
  have himp0 : importDirectory noauroraDirectory [] = some [] := rfl
  simp only [collectHistograms, directories, hread, hread0, List.mapM_cons, List.mapM_nil,
    hgen, Option.map_some', Option.bind_eq_bind, Option.some_bind, Option.pure_def, himp,
    himp0, List.nil_append, List.append_nil]

theorem collectHistograms_gradient :
    collectHistograms gradientEnv directories [] = Except.ok [gradientHistogram] :=
  collectHistograms_single gradientEnv ['g', '.', 'p', 'n', 'g'] gradientImage
    (List.replicate 768 (F64.fin 1)) (F64.fin 1) (F64.fin 1) rfl rfl generateHistogram_gradient

theorem runHistogram_collected (env : Env) (hs : List Histogram)
    (hcol : collectHistograms env directories [] = Except.ok hs) :
    runHistogram env
      = { stdout := [Message.finishedHistograms], datasetLoaded := false, trained := false,
          written := some (serializeHistograms (normalizeAll hs)),
          status := Status.returned } := by
  simp only [runHistogram, hcol]

theorem globalRange_gradient :
    globalRange [gradientHistogram] = (F64.fin 1, F64.fin 1) := by
  decide

set_option maxRecDepth 100000 in
theorem gradientFile_eq :
    serializeHistograms
        [{ gradientHistogram with Data := List.replicate 768 F64.nan }] = gradientFile := by
  decide!

theorem normalizeAll_gradient :
    normalizeAll [gradientHistogram]
      = [{ gradientHistogram with Data := List.replicate 768 F64.nan }] := by
  have hnan : F64.div (F64.sub (F64.fin 1) (F64.fin 1)) (F64.fin 0) = F64.nan := by
    simp [F64.sub, F64.neg, F64.add, F64.div]
  rw [normalizeAll_degenerate _ 1 globalRange_gradient]
  simp only [List.map_cons, List.map_nil, gradientHistogram, List.map_replicate, hnan]

/-- C3 (amended): for every run of the prepare stage that reads its directories and
extracts its files without a panic, and whose computed global minimum equals the global
maximum (both the finite value `m`), the stage performs no detection: it returns normally
after the completion message and writes `histograms.dat` with one record per histogram in
which every data value `v` has been replaced by `(v - m) / 0`, the denominator
`globalMax - globalMin` being zero.  The written value is never finite (NaN for `v = m`,
`+Inf` for `v > m`, `-Inf` for `v < m`) and is serialized as `NaN`, `+Inf` or `-Inf`; the
stage neither passes the values through nor fails with a diagnostic. -/
theorem degenerate_range_not_detected (env : Env) (hs : List Histogram) (m : ℚ)
    (hcol : collectHistograms env directories [] = Except.ok hs)
    (hdeg : globalRange hs = (F64.fin m, F64.fin m)) :
    runHistogram env
      = { stdout := [Message.finishedHistograms], datasetLoaded := false, trained := false,
          written := some (hs.flatMap (fun h =>
            (Itoa h.Classification ++ ' ' :: (joinSpaces (h.Data.map (fun v =>
                formatFloat10 (F64.div (F64.sub v (F64.fin m)) (F64.fin 0))))
              ++ ' ' :: h.FileName)) ++ ['\n'])),
          status := Status.returned } ∧
    F64.sub (globalRange hs).2 (globalRange hs).1 = F64.fin 0 ∧
    (∀ q : ℚ, F64.div (F64.sub (F64.fin q) (F64.fin m)) (F64.fin 0)
      = if q = m then F64.nan else if m < q then F64.posInf else F64.negInf) ∧
    (∀ (v : F64) (q : ℚ), F64.div (F64.sub v (F64.fin m)) (F64.fin 0) ≠ F64.fin q) ∧
    (∀ v : F64,
      formatFloat10 (F64.div (F64.sub v (F64.fin m)) (F64.fin 0)) = ['N', 'a', 'N'] ∨
      formatFloat10 (F64.div (F64.sub v (F64.fin m)) (F64.fin 0)) = ['+', 'I', 'n', 'f'] ∨
      formatFloat10 (F64.div (F64.sub v (F64.fin m)) (F64.fin 0)) = ['-', 'I', 'n', 'f']) := by
  have hden : F64.sub (F64.fin m) (F64.fin m) = F64.fin 0 := by
    simp [F64.sub, F64.neg, F64.add]
  refine ⟨?_, by rw [hdeg]; exact hden, fun q => div_zero_value q m,
    fun v q => div_zero_not_finite v m q, fun v => format_div_zero v m⟩
  rw [runHistogram_collected env hs hcol, normalizeAll_degenerate hs m hdeg,
    serializeHistograms_eq, List.flatMap_map]
  simp only [Histogram.Stringify, List.map_map]
  rfl

/-- Instance of `degenerate_range_not_detected`: the directory `./images/aurora` holds
one 16x16 image in which every grey level occurs once. -/
theorem degenerate_range_not_detected_witness :
    runHistogram gradientEnv
      = { stdout := [Message.finishedHistograms], datasetLoaded := false, trained := false,
          written := some ([gradientHistogram].flatMap (fun h =>
            (Itoa h.Classification ++ ' ' :: (joinSpaces (h.Data.map (fun v =>
                formatFloat10 (F64.div (F64.sub v (F64.fin 1)) (F64.fin 0))))
              ++ ' ' :: h.FileName)) ++ ['\n'])),
          status := Status.returned } :=
  (degenerate_range_not_detected gradientEnv [gradientHistogram] 1 collectHistograms_gradient
    globalRange_gradient).1

/-- C3 (as stated, refuted): for the corpus of one 16x16 image in which every grey level
occurs once, every bin count is 1, the computed global minimum equals the global maximum,
and the prepare stage neither fails nor passes the values through: it returns normally and
writes the record `1 NaN ... NaN g.png` with 768 values NaN, the results of
`(1 - 1) / (1 - 1)`. -/
theorem degenerate_range_counterexample :
    generateHistogram (some gradientImage)
      = some (Extraction.ok (List.replicate 768 (F64.fin 1)) (F64.fin 1) (F64.fin 1)) ∧
    (globalRange [gradientHistogram]).1 = (globalRange [gradientHistogram]).2 ∧
    runHistogram gradientEnv
      = { stdout := [Message.finishedHistograms], datasetLoaded := false, trained := false,
          written := some gradientFile, status := Status.returned } := by
  refine ⟨generateHistogram_gradient, by rw [globalRange_gradient], ?_⟩
  rw [runHistogram_collected gradientEnv [gradientHistogram] collectHistograms_gradient,
    normalizeAll_gradient, gradientFile_eq]

end AuroraPerceptron
